import Mathlib

/-!
Verification of the token-matcher subsystem (pattern classifier, expression
synthesizer, and the hash / regex / automaton matcher backends).

The Rust sources build combined regular-expression strings and hand them to
two external engines (the `regex` crate, performing unanchored substring
search, and `regex_automata` dense DFAs built with `anchored(true)`, whose
`find` returns the end offset of the longest match).  We embed the pattern
model, the classifier and both string synthesizers directly from the source,
and model the two external engines by a regular-expression abstract syntax
with an executable Brzozowski-derivative matcher whose language semantics is
proved equivalent.  Anchors (`^`, `$`) of the regex backend are desugared
into explicit "arbitrary characters" padding expressing the existence of a
matching substring; the automaton backend is modelled by the longest
matching prefix of the whole expression.

The `f32` arithmetic of `DocFreqReciprocal` is modelled exactly: values are
rationals, and every arithmetic step applies IEEE-754 round-to-nearest-even
at 24 bits of precision (overflow and subnormals cannot occur in the domain
used by the code).
-/

namespace RegexTest

/-- Regular-expression abstract syntax used to model the external engines:
empty set, empty string, a literal character sequence (the image of an
escaped literal), a character-range class, alternation, concatenation and
Kleene star. -/
inductive RE where
  | void
  | eps
  | lit (s : List Char)
  | cls (lo hi : Char)
  | any
  | alt (r1 r2 : RE)
  | cat (r1 r2 : RE)
  | star (r : RE)
deriving DecidableEq

/-- Whether the regular expression accepts the empty string. -/
def RE.nullable : RE → Bool
  | .void => false
  | .eps => true
  | .lit s => s.isEmpty
  | .cls _ _ => false
  | .any => false
  | .alt r1 r2 => r1.nullable || r2.nullable
  | .cat r1 r2 => r1.nullable && r2.nullable
  | .star _ => true

/-- Brzozowski derivative with respect to one character. -/
def RE.deriv (c : Char) : RE → RE
  | .void => .void
  | .eps => .void
  | .lit [] => .void
  | .lit (d :: ds) => if c = d then .lit ds else .void
  | .cls lo hi => if lo ≤ c ∧ c ≤ hi then .eps else .void
  | .any => .eps
  | .alt r1 r2 => .alt (r1.deriv c) (r2.deriv c)
  | .cat r1 r2 =>
      if r1.nullable then .alt (.cat (r1.deriv c) r2) (r2.deriv c)
      else .cat (r1.deriv c) r2
  | .star r => .cat (r.deriv c) (.star r)

/-- Executable whole-string acceptance via iterated derivatives. -/
def RE.accepts (r : RE) (s : List Char) : Bool :=
  (s.foldl (fun r c => r.deriv c) r).nullable

/-- Language semantics of the regular-expression syntax. -/
inductive RE.Lang : RE → List Char → Prop where
  | eps : RE.Lang .eps []
  | lit (s : List Char) : RE.Lang (.lit s) s
  | cls {lo hi : Char} {c : Char} (h1 : lo ≤ c) (h2 : c ≤ hi) :
      RE.Lang (.cls lo hi) [c]
  | any (c : Char) : RE.Lang .any [c]
  | altL {r1 r2 : RE} {s : List Char} (h : RE.Lang r1 s) : RE.Lang (.alt r1 r2) s
  | altR {r1 r2 : RE} {s : List Char} (h : RE.Lang r2 s) : RE.Lang (.alt r1 r2) s
  | cat {r1 r2 : RE} {s1 s2 : List Char} (h1 : RE.Lang r1 s1)
      (h2 : RE.Lang r2 s2) : RE.Lang (.cat r1 r2) (s1 ++ s2)
  | starNil {r : RE} : RE.Lang (.star r) []
  | starCons {r : RE} {s1 s2 : List Char} (h1 : RE.Lang r s1)
      (h2 : RE.Lang (.star r) s2) : RE.Lang (.star r) (s1 ++ s2)

theorem RE.Lang.nullable_of_nil {r : RE} (h : RE.Lang r []) : r.nullable = true := by
  generalize hw : ([] : List Char) = w at h
  induction h with
  | eps => rfl
  | lit s => simp [RE.nullable, ← hw]
  | cls h1 h2 => simp at hw
  | any c => simp at hw
  | altL h ih => simp [RE.nullable, ih hw]
  | altR h ih => simp [RE.nullable, ih hw]
  | cat h1 h2 ih1 ih2 =>
      rcases List.append_eq_nil.mp hw.symm with ⟨e1, e2⟩
      simp [RE.nullable, ih1 e1.symm, ih2 e2.symm]
  | starNil => rfl
  | starCons h1 h2 ih1 ih2 => rfl

theorem RE.Lang.of_nullable {r : RE} (h : r.nullable = true) : RE.Lang r [] := by
  induction r with
  | void => simp [RE.nullable] at h
  | eps => exact .eps
  | lit s =>
      simp [RE.nullable, List.isEmpty_iff] at h
      subst h; exact .lit []
  | cls lo hi => simp [RE.nullable] at h
  | any => simp [RE.nullable] at h
  | alt r1 r2 ih1 ih2 =>
      simp [RE.nullable] at h
      rcases h with h | h
      · exact .altL (ih1 h)
      · exact .altR (ih2 h)
  | cat r1 r2 ih1 ih2 =>
      simp [RE.nullable] at h
      exact RE.Lang.cat (ih1 h.1) (ih2 h.2)
  | star r ih => exact .starNil

theorem RE.Lang.deriv_sound {c : Char} {r : RE} :
    ∀ {s : List Char}, RE.Lang (r.deriv c) s → RE.Lang r (c :: s) := by
  induction r with
  | void => intro s h; cases h
  | eps => intro s h; cases h
  | lit t =>
      intro s h
      cases t with
      | nil => cases h
      | cons d ds =>
          rw [RE.deriv] at h
          by_cases hc : c = d
          · rw [if_pos hc] at h
            cases h
            subst hc
            exact .lit _
          · rw [if_neg hc] at h
            cases h
  | cls lo hi =>
      intro s h
      rw [RE.deriv] at h
      split at h
      · cases h
        rename_i hrange
        exact .cls hrange.1 hrange.2
      · cases h
  | any =>
      intro s h
      cases h
      exact .any c
  | alt r1 r2 ih1 ih2 =>
      intro s h
      cases h with
      | altL h => exact .altL (ih1 h)
      | altR h => exact .altR (ih2 h)
  | cat r1 r2 ih1 ih2 =>
      intro s h
      rw [RE.deriv] at h
      split at h
      · rename_i hnull
        cases h with
        | altL h =>
            cases h with
            | cat h1 h2 => exact RE.Lang.cat (ih1 h1) h2
        | altR h =>
            exact RE.Lang.cat (RE.Lang.of_nullable hnull) (ih2 h)
      · cases h with
        | cat h1 h2 => exact RE.Lang.cat (ih1 h1) h2
  | star r ih =>
      intro s h
      rw [RE.deriv] at h
      cases h with
      | cat h1 h2 => exact RE.Lang.starCons (ih h1) h2

theorem RE.Lang.deriv_complete {c : Char} {r : RE} {w : List Char}
    (h : RE.Lang r w) : ∀ {s : List Char}, w = c :: s → RE.Lang (r.deriv c) s := by
  induction h with
  | eps => intro s hw; cases hw
  | lit t =>
      intro s hw
      subst hw
      simp [RE.deriv]
      exact .lit s
  | cls h1 h2 =>
      intro s hw
      cases hw
      rw [RE.deriv, if_pos ⟨h1, h2⟩]
      exact .eps
  | any c =>
      intro s hw
      cases hw
      exact .eps
  | altL h ih =>
      intro s hw
      exact .altL (ih hw)
  | altR h ih =>
      intro s hw
      exact .altR (ih hw)
  | cat h1 h2 ih1 ih2 =>
      intro s hw
      rename_i r1 r2 s1 s2
      match s1, hw with
      | [], hw =>
          have hnull := RE.Lang.nullable_of_nil h1
          rw [RE.deriv, if_pos hnull]
          exact .altR (ih2 hw)
      | c :: s1', hw =>
          rw [List.cons_append] at hw
          cases hw
          rw [RE.deriv]
          split
          · exact .altL (.cat (ih1 rfl) h2)
          · exact .cat (ih1 rfl) h2
  | starNil => intro s hw; cases hw
  | starCons h1 h2 ih1 ih2 =>
      intro s hw
      rename_i r s1 s2
      match s1, hw with
      | [], hw => exact ih2 hw
      | c :: s1', hw =>
          rw [List.cons_append] at hw
          cases hw
          rw [RE.deriv]
          exact .cat (ih1 rfl) h2

/-- Correctness of the executable matcher against the language semantics. -/
theorem RE.accepts_iff_lang (r : RE) (s : List Char) :
    r.accepts s = true ↔ RE.Lang r s := by
  induction s generalizing r with
  | nil =>
      constructor
      · exact RE.Lang.of_nullable
      · exact RE.Lang.nullable_of_nil
  | cons c cs ih =>
      constructor
      · intro h
        exact RE.Lang.deriv_sound ((ih (r.deriv c)).mp h)
      · intro h
        exact (ih (r.deriv c)).mpr (RE.Lang.deriv_complete h rfl)

theorem RE.lang_lit_iff {t s : List Char} : RE.Lang (.lit t) s ↔ s = t := by
  constructor
  · intro h; cases h; rfl
  · intro h; subst h; exact .lit _

theorem RE.lang_alt_iff {r1 r2 : RE} {s : List Char} :
    RE.Lang (.alt r1 r2) s ↔ RE.Lang r1 s ∨ RE.Lang r2 s := by
  constructor
  · intro h
    cases h with
    | altL h => exact Or.inl h
    | altR h => exact Or.inr h
  · intro h
    cases h with
    | inl h => exact .altL h
    | inr h => exact .altR h

theorem RE.lang_cat_iff {r1 r2 : RE} {s : List Char} :
    RE.Lang (.cat r1 r2) s ↔ ∃ s1 s2, s = s1 ++ s2 ∧ RE.Lang r1 s1 ∧ RE.Lang r2 s2 := by
  constructor
  · intro h
    cases h with
    | cat h1 h2 => exact ⟨_, _, rfl, h1, h2⟩
  · rintro ⟨s1, s2, rfl, h1, h2⟩
    exact .cat h1 h2

/-- Alternation of a list of branches; the empty list denotes the empty
pattern string, which is the empty-string regex. -/
def RE.altList : List RE → RE
  | [] => .eps
  | [r] => r
  | r :: rs => .alt r (RE.altList rs)

theorem RE.lang_altList : ∀ {rs : List RE}, rs ≠ [] → ∀ {s : List Char},
    (RE.Lang (RE.altList rs) s ↔ ∃ r ∈ rs, RE.Lang r s) := by
  intro rs
  induction rs with
  | nil => intro h; exact absurd rfl h
  | cons r rest ih =>
      intro _ s
      cases rest with
      | nil => simp [RE.altList]
      | cons r2 rs2 =>
          rw [show RE.altList (r :: r2 :: rs2) = .alt r (RE.altList (r2 :: rs2)) from rfl,
            RE.lang_alt_iff, ih (by simp)]
          simp [List.mem_cons, or_assoc, exists_eq_or_imp]

/-- Concatenation of a list of factors; the empty list denotes the empty
pattern string, which is the empty-string regex. -/
def RE.catList : List RE → RE
  | [] => .eps
  | [r] => r
  | r :: rs => .cat r (RE.catList rs)

theorem RE.lang_star_cls {lo hi : Char} {s : List Char} :
    RE.Lang (.star (.cls lo hi)) s ↔ ∀ c ∈ s, lo ≤ c ∧ c ≤ hi := by
  constructor
  · intro h
    generalize hr : RE.star (.cls lo hi) = r0 at h
    induction h with
    | eps => cases hr
    | lit t => cases hr
    | cls h1 h2 => cases hr
    | any c => cases hr
    | altL h ih => cases hr
    | altR h ih => cases hr
    | cat h1 h2 ih1 ih2 => cases hr
    | starNil => intro c hc; cases hc
    | starCons h1 h2 ih1 ih2 =>
        cases hr
        intro c hc
        cases h1 with
        | cls hc1 hc2 =>
            rcases List.mem_append.mp hc with hc | hc
            · rcases List.mem_singleton.mp hc with rfl
              exact ⟨hc1, hc2⟩
            · exact ih2 rfl c hc
  · intro h
    induction s with
    | nil => exact .starNil
    | cons c cs ih =>
        have h1 : RE.Lang (.cls lo hi) [c] :=
          .cls (h c (List.mem_cons_self c cs)).1 (h c (List.mem_cons_self c cs)).2
        exact RE.Lang.starCons h1 (ih (fun d hd => h d (List.mem_cons_of_mem c hd)))

theorem RE.lang_anyStar (s : List Char) : RE.Lang (.star .any) s := by
  induction s with
  | nil => exact .starNil
  | cons c cs ih => exact RE.Lang.starCons (.any c) ih

theorem RE.lang_cat_anyStar {r : RE} {t : List Char} :
    RE.Lang (.cat r (.star .any)) t ↔ ∃ u v, t = u ++ v ∧ RE.Lang r u := by
  rw [RE.lang_cat_iff]
  constructor
  · rintro ⟨u, v, rfl, h1, _⟩
    exact ⟨u, v, rfl, h1⟩
  · rintro ⟨u, v, rfl, h1⟩
    exact ⟨u, v, rfl, h1, RE.lang_anyStar v⟩

theorem RE.lang_anyStar_cat {r : RE} {t : List Char} :
    RE.Lang (.cat (.star .any) r) t ↔ ∃ u v, t = u ++ v ∧ RE.Lang r v := by
  rw [RE.lang_cat_iff]
  constructor
  · rintro ⟨u, v, rfl, _, h2⟩
    exact ⟨u, v, rfl, h2⟩
  · rintro ⟨u, v, rfl, h2⟩
    exact ⟨u, v, rfl, RE.lang_anyStar u, h2⟩

/-- Pattern element node (src/main.rs, `PatternASTNode`). -/
inductive PatternASTNode where
  | Literal (s : String)
  | Wildcard
deriving DecidableEq

/-- A pattern: the ordered node sequence (src/main.rs, `PatternAST`). -/
structure PatternAST where
  nodes : List PatternASTNode
deriving DecidableEq

/-- All things a token matcher can match for (src/token_matcher.rs,
`MatchPredicate`). -/
inductive MatchPredicate where
  | Term (s : String)
  | Pattern (ast : PatternAST)
deriving DecidableEq

/-- The derived `Ord` of `PatternASTNode`: variant order first
(`Literal < Wildcard`), then the `String` payload lexicographically. -/
def PatternASTNode.lt : PatternASTNode → PatternASTNode → Bool
  | .Literal s, .Literal t => s < t
  | .Literal _, .Wildcard => true
  | .Wildcard, _ => false

/-- Lexicographic strict order on node vectors, as `Vec`'s derived `Ord`. -/
def nodeListLt : List PatternASTNode → List PatternASTNode → Bool
  | [], [] => false
  | [], _ :: _ => true
  | _ :: _, [] => false
  | a :: as, b :: bs => if a = b then nodeListLt as bs else PatternASTNode.lt a b

/-- The derived `Ord` of `MatchPredicate`: every `Term` sorts before every
`Pattern` (variant order), then payloads lexicographically.  `BTreeSet`
iterates predicates in increasing order of this relation. -/
def MatchPredicate.lt : MatchPredicate → MatchPredicate → Bool
  | .Term s, .Term t => s < t
  | .Term _, .Pattern _ => true
  | .Pattern _, .Term _ => false
  | .Pattern a, .Pattern b => nodeListLt a.nodes b.nodes

/-- A list of predicates is a faithful image of a `BTreeSet` iteration when
it is strictly sorted by the derived order. -/
def PredicateSetSorted (ps : List MatchPredicate) : Prop :=
  List.Pairwise (fun a b => MatchPredicate.lt a b = true) ps

instance : DecidablePred PredicateSetSorted := fun ps =>
  inferInstanceAs (Decidable (List.Pairwise _ ps))

/-- Patterns grouped into 5 groups (src/token_matcher/regex_util.rs,
`GroupedPatterns`). -/
structure GroupedPatterns where
  terms : List String
  terms_wc : List (List PatternASTNode)
  terms_internal_wc : List (List PatternASTNode)
  wc_terms : List (List PatternASTNode)
  wc_terms_wc : List (List PatternASTNode)
deriving DecidableEq

/-- One iteration step of `GroupedPatterns::group`'s `for` loop, routing a
predicate into its group (pushing in iteration order). -/
def groupInsert (match_predicate : MatchPredicate) (groups : GroupedPatterns) :
    GroupedPatterns :=
  match match_predicate with
  | .Term term_text => { groups with terms := term_text :: groups.terms }
  | .Pattern ast =>
      let nodes := ast.nodes
      match nodes.head? with
      | some (.Literal first_text) =>
          if nodes.length = 1 then { groups with terms := first_text :: groups.terms }
          else
            match nodes.getLast? with
            | some (.Literal _) =>
                { groups with terms_internal_wc := nodes :: groups.terms_internal_wc }
            | some .Wildcard =>
                { groups with terms_wc := nodes.dropLast :: groups.terms_wc }
            | none => groups
      | some .Wildcard =>
          if nodes.length > 1 then
            match nodes.getLast? with
            | some (.Literal _) => { groups with wc_terms := nodes.tail :: groups.wc_terms }
            | some .Wildcard =>
                { groups with wc_terms_wc := nodes.tail.dropLast :: groups.wc_terms_wc }
            | none => groups
          else groups
      | none => groups

/-- `GroupedPatterns::group` (src/token_matcher/regex_util.rs): one pass over
the predicate set in iteration order. -/
def GroupedPatterns.group : List MatchPredicate → GroupedPatterns
  | [] => ⟨[], [], [], [], []⟩
  | p :: rest => groupInsert p (GroupedPatterns.group rest)

/-- `regex_syntax::is_meta_character` of the escaping routine used by both
backends (external crate `regex-syntax`, modelled from its source). -/
def is_meta_character (c : Char) : Bool :=
  c = '\\' || c = '.' || c = '+' || c = '*' || c = '?' || c = '(' || c = ')' ||
  c = '|' || c = '[' || c = ']' || c = Char.ofNat 123 || c = Char.ofNat 125 ||
  c = '^' || c = '$' || c = '#' || c = '&' || c = '-' || c = '~'

/-- `regex_syntax::escape`: prepend a backslash to every meta character. -/
def escape (s : String) : String :=
  String.mk ((s.data.map (fun c => if is_meta_character c then ['\\', c] else [c])).flatten)

/-- The automaton backend's wildcard expression string
(src/token_matcher/automaton_matcher.rs, `WILDCARD_EXPR`); the regex backend
passes the identical string in `compile_regex`. -/
def WILDCARD_EXPR : String := "[\\x\x7b0000\x7d-\\x\x7b024f\x7d]*"

namespace regex_matcher

/-- `pattern_to_regex_expr` (src/token_matcher/regex_matcher.rs). -/
def pattern_to_regex_expr (ast_nodes : List PatternASTNode) (wildcard_expr : String) :
    Option String :=
  match ast_nodes with
  | [] => none
  | [node] =>
      match node with
      | .Literal text => some (escape text)
      | .Wildcard => none
  | _ =>
      some (String.join (ast_nodes.map (fun node =>
        match node with
        | .Literal text => escape text
        | .Wildcard => wildcard_expr)))

/-- `generate_regex_pattern` (src/token_matcher/regex_matcher.rs): the
synthesized combined expression of the regex backend. -/
def generate_regex_pattern (predicate_set : List MatchPredicate)
    (wildcard_expr : String) : String :=
  let groups := GroupedPatterns.group predicate_set
  let regex_exprs : List (Option String) := [
    (if groups.terms.length > 0 then
      some (String.intercalate "|" (groups.terms.map
        (fun term => "^(" ++ escape term ++ ")$")))
    else none),
    (if groups.terms_internal_wc.length > 0 then
      some (String.intercalate "|" (groups.terms_internal_wc.filterMap
        (fun pattern => (pattern_to_regex_expr pattern wildcard_expr).map
          (fun expr => "^" ++ expr ++ "$"))))
    else none),
    (if groups.terms_wc.length > 0 then
      some (String.intercalate "|" (groups.terms_wc.filterMap
        (fun pattern => (pattern_to_regex_expr pattern wildcard_expr).map
          (fun expr => "^" ++ expr))))
    else none),
    (if groups.wc_terms.length > 0 then
      some (String.intercalate "|" (groups.wc_terms.filterMap
        (fun pattern => (pattern_to_regex_expr pattern wildcard_expr).map
          (fun expr => expr ++ "$"))))
    else none),
    (if groups.wc_terms_wc.length > 0 then
      some (String.intercalate "|" (groups.wc_terms_wc.filterMap
        (fun pattern => pattern_to_regex_expr pattern wildcard_expr)))
    else none)]
  String.intercalate "|" (regex_exprs.filterMap id)

end regex_matcher

namespace automaton_matcher

/-- `pattern_asts_to_regex_string` (src/token_matcher/automaton_matcher.rs). -/
def pattern_asts_to_regex_string (pattern_asts : List (List PatternASTNode))
    (wildcard_expr : String) : String :=
  String.intercalate "|" (pattern_asts.filterMap (fun ast_nodes =>
    match ast_nodes with
    | [] => none
    | [node] =>
        match node with
        | .Literal text => some (escape text)
        | .Wildcard => none
    | _ =>
        some ("(" ++ String.join (ast_nodes.map (fun node =>
          match node with
          | .Literal text => escape text
          | .Wildcard => wildcard_expr)) ++ ")")))

/-- `generate_regex_pattern` (src/token_matcher/automaton_matcher.rs): the
synthesized combined expression of the automaton backend. -/
def generate_regex_pattern (predicate_set : List MatchPredicate)
    (wildcard_expr : String) : String :=
  let groups := GroupedPatterns.group predicate_set
  let regex_exprs : List (Option String) := [
    (if groups.terms.length > 0 then
      some (String.intercalate "|" (groups.terms.map escape))
    else none),
    (if groups.terms_wc.length > 0 then
      some ("((" ++ pattern_asts_to_regex_string groups.terms_wc wildcard_expr ++ ")"
        ++ wildcard_expr ++ ")")
    else none),
    (if groups.terms_internal_wc.length > 0 then
      some (pattern_asts_to_regex_string groups.terms_internal_wc wildcard_expr)
    else none),
    (if groups.wc_terms.length > 0 then
      some ("(" ++ wildcard_expr ++ "("
        ++ pattern_asts_to_regex_string groups.wc_terms wildcard_expr ++ "))")
    else none),
    (if groups.wc_terms_wc.length > 0 then
      some ("(" ++ wildcard_expr ++ "("
        ++ pattern_asts_to_regex_string groups.wc_terms_wc wildcard_expr ++ ")"
        ++ wildcard_expr ++ ")")
    else none)]
  String.intercalate "|" (regex_exprs.filterMap id)

end automaton_matcher

/-- Bounds of the wildcard character class `[\x7b0000\x7d-\x7b024f\x7d]`
(written here without the `\x` escapes). -/
def wildcardLo : Char := Char.ofNat 0

def wildcardHi : Char := Char.ofNat 0x24F

/-- RE denotation of the wildcard expression `WILDCARD_EXPR`: zero or more
characters in U+0000..U+024F. -/
def wildcardRE : RE := .star (.cls wildcardLo wildcardHi)

/-- RE denotation of one pattern node: the regex parse of an escaped literal
is the literal character sequence itself; a wildcard node denotes the
wildcard expression. -/
def nodeRE : PatternASTNode → RE
  | .Literal text => .lit text.data
  | .Wildcard => wildcardRE

/-- RE denotation of one pattern's synthesized sub-expression, mirroring
`pattern_to_regex_expr` of the regex backend and the per-pattern branch of
`pattern_asts_to_regex_string` of the automaton backend (whose added
grouping parentheses do not change the denoted language). -/
def patternRE (ast_nodes : List PatternASTNode) : Option RE :=
  match ast_nodes with
  | [] => none
  | [node] =>
      match node with
      | .Literal text => some (.lit text.data)
      | .Wildcard => none
  | _ => some (RE.catList (ast_nodes.map nodeRE))

/-- Index of the first occurrence of `t` in a list of term strings. -/
def firstIdxEq : List String → String → Option Nat
  | [], _ => none
  | term :: rest, t =>
      if term = t then some 0 else (firstIdxEq rest t).map (· + 1)

theorem firstIdxEq_eq_none_iff {l : List String} {t : String} :
    firstIdxEq l t = none ↔ t ∉ l := by
  induction l with
  | nil => simp [firstIdxEq]
  | cons term rest ih =>
      rw [firstIdxEq]
      by_cases h : term = t
      · simp [h]
      · simp [h, Option.map_eq_none', ih, List.mem_cons, Ne.symm h]

theorem firstIdxEq_spec {l : List String} {t : String} {i : Nat}
    (h : firstIdxEq l t = some i) : i < l.length ∧ l[i]? = some t := by
  induction l generalizing i with
  | nil => simp [firstIdxEq] at h
  | cons term rest ih =>
      rw [firstIdxEq] at h
      by_cases he : term = t
      · rw [if_pos he] at h
        cases h
        subst he
        simp
      · rw [if_neg he] at h
        rcases Option.map_eq_some'.mp h with ⟨j, hj, rfl⟩
        rcases ih hj with ⟨h1, h2⟩
        exact ⟨by simpa using Nat.succ_lt_succ h1, by simpa using h2⟩

namespace regex_matcher

/-- The branches of the synthesized pattern as denoted by the external
`regex` engine, which performs unanchored substring search: a branch without
`^` (resp. `$`) may be preceded (resp. followed) by arbitrary characters,
modelled with `.star .any` padding; `^...$` branches must cover the whole
token.  Branch order mirrors `generate_regex_pattern`. -/
def branchREs (predicate_set : List MatchPredicate) : List RE :=
  let groups := GroupedPatterns.group predicate_set
  let regex_exprs : List (Option RE) := [
    (if groups.terms.length > 0 then
      some (RE.altList (groups.terms.map (fun term => .lit term.data)))
    else none),
    (if groups.terms_internal_wc.length > 0 then
      some (RE.altList (groups.terms_internal_wc.filterMap patternRE))
    else none),
    (if groups.terms_wc.length > 0 then
      some (.cat (RE.altList (groups.terms_wc.filterMap patternRE)) (.star .any))
    else none),
    (if groups.wc_terms.length > 0 then
      some (.cat (.star .any) (RE.altList (groups.wc_terms.filterMap patternRE)))
    else none),
    (if groups.wc_terms_wc.length > 0 then
      some (.cat (.star .any)
        (.cat (RE.altList (groups.wc_terms_wc.filterMap patternRE)) (.star .any)))
    else none)]
  regex_exprs.filterMap id

/-- Whether `captures_read` finds a match: some branch matches (a substring
of) the token; an empty synthesized pattern is the empty regex, which
matches every haystack. -/
def regex_matches (predicate_set : List MatchPredicate) (t : String) : Bool :=
  match branchREs predicate_set with
  | [] => true
  | rs => RE.accepts (RE.altList rs) t.data

/-- Model of the capture-group outcome of `captures_read`: capture slot
`i + 1` participates iff the engine's leftmost-first alternation selected
term alternative `i`.  The term alternatives are listed first and each is
anchored to the whole token, so this happens exactly for the least `i` with
`terms[i] = token`. -/
def captured_term_index (predicate_set : List MatchPredicate) (t : String) :
    Option Nat :=
  if regex_matches predicate_set t then
    firstIdxEq (GroupedPatterns.group predicate_set).terms t
  else none

end regex_matcher

namespace automaton_matcher

/-- RE denotation of the automaton backend's synthesized expression; branch
order mirrors its `generate_regex_pattern`.  The DFA is built
`anchored(true)`, so no padding is added anywhere. -/
def automatonRE (predicate_set : List MatchPredicate) : RE :=
  let groups := GroupedPatterns.group predicate_set
  let regex_exprs : List (Option RE) := [
    (if groups.terms.length > 0 then
      some (RE.altList (groups.terms.map (fun term => .lit term.data)))
    else none),
    (if groups.terms_wc.length > 0 then
      some (.cat (RE.altList (groups.terms_wc.filterMap patternRE)) wildcardRE)
    else none),
    (if groups.terms_internal_wc.length > 0 then
      some (RE.altList (groups.terms_internal_wc.filterMap patternRE))
    else none),
    (if groups.wc_terms.length > 0 then
      some (.cat wildcardRE (RE.altList (groups.wc_terms.filterMap patternRE)))
    else none),
    (if groups.wc_terms_wc.length > 0 then
      some (.cat wildcardRE
        (.cat (RE.altList (groups.wc_terms_wc.filterMap patternRE)) wildcardRE))
    else none)]
  RE.altList (regex_exprs.filterMap id)

/-- Helper for `dfaFind`: try prefix lengths from `n` downwards. -/
def dfaFindFrom (r : RE) (s : List Char) : Nat → Option Nat
  | 0 => if r.accepts [] then some 0 else none
  | n + 1 => if r.accepts (s.take (n + 1)) then some (n + 1) else dfaFindFrom r s n

/-- `DenseDFA::find` on an `anchored(true)` automaton: the end offset of the
longest matching prefix, `none` when no prefix matches. -/
def dfaFind (r : RE) (s : List Char) : Option Nat := dfaFindFrom r s s.length

/-- The automaton matcher's match decision: `find` must report a full-length
match (`match_length < token_text.len()` is treated as no match). -/
def automaton_matches (predicate_set : List MatchPredicate) (t : String) : Bool :=
  match dfaFind (automatonRE predicate_set) t.data with
  | none => false
  | some match_length => if match_length < t.data.length then false else true

theorem dfaFindFrom_some_le {r : RE} {s : List Char} {n m : Nat}
    (h : dfaFindFrom r s n = some m) : m ≤ n := by
  induction n with
  | zero =>
      rw [dfaFindFrom] at h
      split at h
      · cases h; exact Nat.le_refl 0
      · cases h
  | succ n ih =>
      rw [dfaFindFrom] at h
      split at h
      · cases h; exact Nat.le_refl _
      · exact Nat.le_succ_of_le (ih h)

theorem dfaFindFrom_some_accepts {r : RE} {s : List Char} {n m : Nat}
    (h : dfaFindFrom r s n = some m) : r.accepts (s.take m) = true := by
  induction n with
  | zero =>
      rw [dfaFindFrom] at h
      split at h
      · cases h; simpa using (by assumption : r.accepts [] = true)
      · cases h
  | succ n ih =>
      rw [dfaFindFrom] at h
      split at h
      · cases h; assumption
      · exact ih h

theorem dfaFind_of_accepts {r : RE} {s : List Char} (h : r.accepts s = true) :
    dfaFind r s = some s.length := by
  rw [dfaFind]
  cases hl : s.length with
  | zero =>
      have hs : s = [] := List.length_eq_zero.mp hl
      subst hs
      rw [dfaFindFrom, if_pos h]
  | succ n =>
      rw [dfaFindFrom]
      have ht : s.take (n + 1) = s := by
        rw [← hl]; exact List.take_length s
      rw [ht, if_pos h]

/-- The match decision of the automaton matcher coincides with whole-token
acceptance of its synthesized expression. -/
theorem automaton_matches_iff_accepts (predicate_set : List MatchPredicate)
    (t : String) :
    automaton_matches predicate_set t
      = RE.accepts (automatonRE predicate_set) t.data := by
  rw [automaton_matches]
  cases hacc : RE.accepts (automatonRE predicate_set) t.data with
  | true =>
      rw [dfaFind_of_accepts hacc]
      simp
  | false =>
      cases hf : dfaFind (automatonRE predicate_set) t.data with
      | none => rfl
      | some m =>
          have hle : m ≤ t.data.length := dfaFindFrom_some_le hf
          have hm : m ≠ t.data.length := by
            intro heq
            subst heq
            have := dfaFindFrom_some_accepts hf
            rw [List.take_length] at this
            rw [this] at hacc
            cases hacc
          show (if m < t.data.length then false else true) = false
          rw [if_pos (Nat.lt_of_le_of_ne hle hm)]

end automaton_matcher

/-- Round a rational to the nearest integer, ties to even. -/
def rne (s : ℚ) : ℤ :=
  if s - ⌊s⌋ < 1/2 then ⌊s⌋
  else if 1/2 < s - ⌊s⌋ then ⌊s⌋ + 1
  else if Even ⌊s⌋ then ⌊s⌋ else ⌊s⌋ + 1

theorem rne_ge (s : ℚ) : ⌊s⌋ ≤ rne s := by
  rw [rne]; split_ifs <;> omega

theorem rne_le (s : ℚ) : rne s ≤ ⌊s⌋ + 1 := by
  rw [rne]; split_ifs <;> omega

theorem rne_mono {s1 s2 : ℚ} (h : s1 ≤ s2) : rne s1 ≤ rne s2 := by
  have hf : ⌊s1⌋ ≤ ⌊s2⌋ := Int.floor_mono h
  rcases lt_or_eq_of_le hf with hlt | heq
  · calc rne s1 ≤ ⌊s1⌋ + 1 := rne_le s1
      _ ≤ ⌊s2⌋ := hlt
      _ ≤ rne s2 := rne_ge s2
  · rw [rne, rne, ← heq]
    have hr1 : ((⌊s1⌋ : ℚ)) ≤ s1 := Int.floor_le s1
    have hr2 : s1 - ⌊s1⌋ ≤ s2 - ⌊s1⌋ := by linarith
    split_ifs <;> first | omega | linarith

/-- Round a positive rational to the nearest IEEE-754 binary32 value
(24-bit significand, round to nearest, ties to even); zero for zero.
Subnormal and overflow ranges are not modelled: they cannot arise in the
`from_doc_freq` computation on `u64` inputs, whose values all lie well
inside the normal range. -/
def roundF32 (q : ℚ) : ℚ :=
  if q ≤ 0 then 0
  else (rne (q * (2:ℚ) ^ ((23:ℤ) - Int.log 2 q)) : ℚ) * (2:ℚ) ^ (Int.log 2 q - (23:ℤ))

theorem log2_eq_of_bounds {q : ℚ} {e : ℤ} (h0 : 0 < q)
    (hlo : (2:ℚ) ^ e ≤ q) (hhi : q < (2:ℚ) ^ (e + 1)) : Int.log 2 q = e := by
  have ha := Int.zpow_log_le_self (b := 2) (R := ℚ) one_lt_two h0
  have hb := Int.lt_zpow_succ_log_self (b := 2) (R := ℚ) one_lt_two q
  push_cast at ha hb
  have h1 : Int.log 2 q < e + 1 := by
    by_contra hc
    push_neg at hc
    have hle : (2:ℚ) ^ (e + 1) ≤ (2:ℚ) ^ (Int.log 2 q) :=
      (zpow_le_zpow_iff_right₀ one_lt_two).mpr hc
    linarith
  have h2 : e ≤ Int.log 2 q := by
    by_contra hc
    push_neg at hc
    have hle : (2:ℚ) ^ (Int.log 2 q + 1) ≤ (2:ℚ) ^ e :=
      (zpow_le_zpow_iff_right₀ one_lt_two).mpr (by omega)
    linarith
  omega

theorem roundF32_bounds {q : ℚ} (h0 : 0 < q) :
    (2:ℚ) ^ (Int.log 2 q) ≤ roundF32 q ∧ roundF32 q ≤ (2:ℚ) ^ (Int.log 2 q + 1) := by
  have ha := Int.zpow_log_le_self (b := 2) (R := ℚ) one_lt_two h0
  have hb := Int.lt_zpow_succ_log_self (b := 2) (R := ℚ) one_lt_two q
  push_cast at ha hb
  set e := Int.log 2 q with he
  set s := q * (2:ℚ) ^ ((23:ℤ) - e) with hs
  have hpow : (0:ℚ) < (2:ℚ) ^ ((23:ℤ) - e) := zpow_pos two_pos _
  have hpow2 : (0:ℚ) < (2:ℚ) ^ (e - (23:ℤ)) := zpow_pos two_pos _
  have he23 : (2:ℚ) ^ e * (2:ℚ) ^ ((23:ℤ) - e) = (2:ℚ) ^ (23:ℤ) := by
    rw [← zpow_add₀ (two_ne_zero (α := ℚ))]
    norm_num
  have he24 : (2:ℚ) ^ (e + 1) * (2:ℚ) ^ ((23:ℤ) - e) = (2:ℚ) ^ (24:ℤ) := by
    rw [← zpow_add₀ (two_ne_zero (α := ℚ))]
    congr 1
    omega
  have hslo : (2:ℚ) ^ (23:ℤ) ≤ s := by
    rw [← he23, hs]
    exact mul_le_mul_of_nonneg_right ha (le_of_lt hpow)
  have hshi : s < (2:ℚ) ^ (24:ℤ) := by
    rw [← he24, hs]
    exact mul_lt_mul_of_pos_right hb hpow
  have h23 : ((2:ℚ) ^ (23:ℤ)) = ((8388608 : ℤ) : ℚ) := by norm_num
  have h24 : ((2:ℚ) ^ (24:ℤ)) = ((16777216 : ℤ) : ℚ) := by norm_num
  have hflo : (8388608 : ℤ) ≤ ⌊s⌋ := Int.le_floor.mpr (by rw [← h23]; exact hslo)
  have hfhi : ⌊s⌋ < (16777216 : ℤ) := Int.floor_lt.mpr (by rw [← h24]; exact hshi)
  have hrlo : (8388608 : ℤ) ≤ rne s := le_trans hflo (rne_ge s)
  have hrhi : rne s ≤ (16777216 : ℤ) := le_trans (rne_le s) (by omega)
  have hform : roundF32 q = (rne s : ℚ) * (2:ℚ) ^ (e - (23:ℤ)) := by
    rw [roundF32, if_neg (not_le.mpr h0)]
  constructor
  · rw [hform]
    calc (2:ℚ) ^ e = (2:ℚ) ^ (23:ℤ) * (2:ℚ) ^ (e - (23:ℤ)) := by
          rw [← zpow_add₀ (two_ne_zero (α := ℚ))]; congr 1; omega
      _ ≤ (rne s : ℚ) * (2:ℚ) ^ (e - (23:ℤ)) := by
          apply mul_le_mul_of_nonneg_right _ (le_of_lt hpow2)
          rw [h23]
          exact_mod_cast hrlo
  · rw [hform]
    calc (rne s : ℚ) * (2:ℚ) ^ (e - (23:ℤ))
        ≤ (2:ℚ) ^ (24:ℤ) * (2:ℚ) ^ (e - (23:ℤ)) := by
          apply mul_le_mul_of_nonneg_right _ (le_of_lt hpow2)
          rw [h24]
          exact_mod_cast hrhi
      _ = (2:ℚ) ^ (e + 1) := by
          rw [← zpow_add₀ (two_ne_zero (α := ℚ))]; congr 1; omega

theorem roundF32_pos {q : ℚ} (h0 : 0 < q) : 0 < roundF32 q :=
  lt_of_lt_of_le (zpow_pos two_pos _) (roundF32_bounds h0).1

theorem roundF32_mono {q1 q2 : ℚ} (h0 : 0 < q1) (h : q1 ≤ q2) :
    roundF32 q1 ≤ roundF32 q2 := by
  have h02 : 0 < q2 := lt_of_lt_of_le h0 h
  have hee : Int.log 2 q1 ≤ Int.log 2 q2 := Int.log_mono_right h0 h
  rcases lt_or_eq_of_le hee with hlt | heq
  · calc roundF32 q1 ≤ (2:ℚ) ^ (Int.log 2 q1 + 1) := (roundF32_bounds h0).2
      _ ≤ (2:ℚ) ^ (Int.log 2 q2) := (zpow_le_zpow_iff_right₀ one_lt_two).mpr (by omega)
      _ ≤ roundF32 q2 := (roundF32_bounds h02).1
  · rw [roundF32, roundF32, if_neg (not_le.mpr h0), if_neg (not_le.mpr h02), ← heq]
    apply mul_le_mul_of_nonneg_right _ (le_of_lt (zpow_pos two_pos _))
    have hs : q1 * (2:ℚ) ^ ((23:ℤ) - Int.log 2 q1) ≤ q2 * (2:ℚ) ^ ((23:ℤ) - Int.log 2 q1) :=
      mul_le_mul_of_nonneg_right h (le_of_lt (zpow_pos two_pos _))
    exact_mod_cast rne_mono hs

theorem roundF32_eq {q v : ℚ} {e n : ℤ} (h0 : 0 < q)
    (hlo : (2:ℚ) ^ e ≤ q) (hhi : q < (2:ℚ) ^ (e + 1))
    (hr : rne (q * (2:ℚ) ^ ((23:ℤ) - e)) = n)
    (hv : (n : ℚ) * (2:ℚ) ^ (e - (23:ℤ)) = v) : roundF32 q = v := by
  rw [roundF32, if_neg (not_le.mpr h0), log2_eq_of_bounds h0 hlo hhi, hr, hv]

theorem rne_intCast (n : ℤ) : rne (n : ℚ) = n := by
  rw [rne]
  simp

theorem rne_eq_floor {s : ℚ} {n : ℤ} (hf : ⌊s⌋ = n) (h : s - n < 1/2) : rne s = n := by
  rw [rne, hf, if_pos h]

theorem rne_eq_floor_add_one {s : ℚ} {n : ℤ} (hf : ⌊s⌋ = n) (h : 1/2 < s - n) :
    rne s = n + 1 := by
  rw [rne, hf, if_neg (by linarith), if_pos h]

theorem rne_tie_even {s : ℚ} {n : ℤ} (hf : ⌊s⌋ = n) (h : s - n = 1/2) (he : Even n) :
    rne s = n := by
  rw [rne, hf, if_neg (by linarith), if_neg (by linarith), if_pos he]

/-- `doc_freq as f32`: `u64` to `f32` conversion (round to nearest even). -/
def u64ToF32 (n : Nat) : ℚ := roundF32 (n : ℚ)

/-- `f32` addition: round the exact sum. -/
def f32Add (x y : ℚ) : ℚ := roundF32 (x + y)

/-- `f32` division: round the exact quotient. -/
def f32Div (x y : ℚ) : ℚ := roundF32 (x / y)

/-- `DocFreqReciprocal` (src/token_matcher.rs): the `f32` relevance weight. -/
structure DocFreqReciprocal where
  val : ℚ
deriving DecidableEq

/-- `DocFreqReciprocal::from_doc_freq`: `None` for a zero document
frequency, otherwise the `f32` value `1.0 / (doc_freq as f32 + 1.0)`
(conversion, addition and division each rounding to nearest even). -/
def DocFreqReciprocal.from_doc_freq (doc_freq : Nat) : Option DocFreqReciprocal :=
  if doc_freq = 0 then none
  else some ⟨f32Div 1 (f32Add (u64ToF32 doc_freq) 1)⟩

theorem roundF32_one : roundF32 1 = 1 :=
  roundF32_eq (e := 0) (n := 8388608) one_pos (by norm_num) (by norm_num)
    (by rw [show (1:ℚ) * (2:ℚ) ^ ((23:ℤ) - 0) = ((8388608:ℤ) : ℚ) by norm_num,
      rne_intCast])
    (by norm_num)

theorem roundF32_two : roundF32 2 = 2 :=
  roundF32_eq (e := 1) (n := 8388608) two_pos (by norm_num) (by norm_num)
    (by rw [show (2:ℚ) * (2:ℚ) ^ ((23:ℤ) - 1) = ((8388608:ℤ) : ℚ) by norm_num,
      rne_intCast])
    (by norm_num)

theorem roundF32_three : roundF32 3 = 3 :=
  roundF32_eq (e := 1) (n := 12582912) (by norm_num) (by norm_num) (by norm_num)
    (by rw [show (3:ℚ) * (2:ℚ) ^ ((23:ℤ) - 1) = ((12582912:ℤ) : ℚ) by norm_num,
      rne_intCast])
    (by norm_num)

theorem roundF32_half : roundF32 (1/2) = 1/2 :=
  roundF32_eq (e := -1) (n := 8388608) (by norm_num) (by norm_num) (by norm_num)
    (by rw [show (1/2 : ℚ) * (2:ℚ) ^ ((23:ℤ) - (-1)) = ((8388608:ℤ) : ℚ) by norm_num,
      rne_intCast])
    (by norm_num)

/-- `1/3` is not representable in `f32`: the rounded value is
`11184811 / 2^25`. -/
theorem roundF32_third : roundF32 (1/3) = 11184811/33554432 :=
  roundF32_eq (e := -2) (n := 11184811) (by norm_num) (by norm_num) (by norm_num)
    (by
      rw [show (1/3 : ℚ) * (2:ℚ) ^ ((23:ℤ) - (-2)) = 33554432/3 by norm_num]
      rw [show (11184811 : ℤ) = 11184810 + 1 from rfl]
      apply rne_eq_floor_add_one
      · rw [Int.floor_eq_iff]
        constructor <;> norm_num
      · norm_num)
    (by norm_num)

theorem roundF32_p24 : roundF32 16777216 = 16777216 :=
  roundF32_eq (e := 24) (n := 8388608) (by norm_num) (by norm_num) (by norm_num)
    (by rw [show (16777216:ℚ) * (2:ℚ) ^ ((23:ℤ) - 24) = ((8388608:ℤ) : ℚ) by norm_num,
      rne_intCast])
    (by norm_num)

/-- `2^24 + 1` is not representable in `f32` and rounds (tie to even) down
to `2^24`. -/
theorem roundF32_p24_succ : roundF32 16777217 = 16777216 :=
  roundF32_eq (e := 24) (n := 8388608) (by norm_num) (by norm_num) (by norm_num)
    (by
      rw [show (16777217:ℚ) * (2:ℚ) ^ ((23:ℤ) - 24) = 16777217/2 by norm_num]
      apply rne_tie_even
      · rw [Int.floor_eq_iff]
        constructor <;> norm_num
      · norm_num
      · exact ⟨4194304, by norm_num⟩)
    (by norm_num)

theorem roundF32_inv_p24 : roundF32 (1/16777216) = 1/16777216 :=
  roundF32_eq (e := -24) (n := 8388608) (by norm_num) (by norm_num) (by norm_num)
    (by rw [show (1/16777216 : ℚ) * (2:ℚ) ^ ((23:ℤ) - (-24)) = ((8388608:ℤ) : ℚ) by
      norm_num, rne_intCast])
    (by norm_num)

theorem from_doc_freq_zero : DocFreqReciprocal.from_doc_freq 0 = none := by
  rw [DocFreqReciprocal.from_doc_freq, if_pos rfl]

theorem from_doc_freq_one : DocFreqReciprocal.from_doc_freq 1 = some ⟨1/2⟩ := by
  rw [DocFreqReciprocal.from_doc_freq, if_neg (by norm_num)]
  rw [u64ToF32, show ((1:ℕ) : ℚ) = 1 by norm_num, roundF32_one]
  rw [f32Add, show (1:ℚ) + 1 = 2 by norm_num, roundF32_two]
  rw [f32Div, show (1:ℚ) / 2 = 1/2 by norm_num, roundF32_half]

theorem from_doc_freq_two :
    DocFreqReciprocal.from_doc_freq 2 = some ⟨11184811/33554432⟩ := by
  rw [DocFreqReciprocal.from_doc_freq, if_neg (by norm_num)]
  rw [u64ToF32, show ((2:ℕ) : ℚ) = 2 by norm_num, roundF32_two]
  rw [f32Add, show (2:ℚ) + 1 = 3 by norm_num, roundF32_three]
  rw [f32Div, show (1:ℚ) / 3 = 1/3 by norm_num, roundF32_third]

theorem from_doc_freq_p24 :
    DocFreqReciprocal.from_doc_freq 16777216 = some ⟨1/16777216⟩ := by
  rw [DocFreqReciprocal.from_doc_freq, if_neg (by norm_num)]
  rw [u64ToF32, show ((16777216:ℕ) : ℚ) = 16777216 by norm_num, roundF32_p24]
  rw [f32Add, show (16777216:ℚ) + 1 = 16777217 by norm_num, roundF32_p24_succ]
  rw [f32Div, show (1:ℚ) / 16777216 = 1/16777216 by norm_num, roundF32_inv_p24]

theorem from_doc_freq_p24_succ :
    DocFreqReciprocal.from_doc_freq 16777217 = some ⟨1/16777216⟩ := by
  rw [DocFreqReciprocal.from_doc_freq, if_neg (by norm_num)]
  rw [u64ToF32, show ((16777217:ℕ) : ℚ) = 16777217 by norm_num, roundF32_p24_succ]
  rw [f32Add, show (16777216:ℚ) + 1 = 16777217 by norm_num, roundF32_p24_succ]
  rw [f32Div, show (1:ℚ) / 16777216 = 1/16777216 by norm_num, roundF32_inv_p24]

/-- The scorer is antitone: a larger document frequency never yields a
larger weight (a consequence of the monotonicity of f32 rounding). -/
theorem from_doc_freq_antitone {d1 d2 : Nat} (h1 : 1 ≤ d1) (h : d1 ≤ d2)
    {v1 v2 : DocFreqReciprocal}
    (hv1 : DocFreqReciprocal.from_doc_freq d1 = some v1)
    (hv2 : DocFreqReciprocal.from_doc_freq d2 = some v2) : v2.val ≤ v1.val := by
  rw [DocFreqReciprocal.from_doc_freq, if_neg (by omega)] at hv1 hv2
  cases hv1
  cases hv2
  have hd1 : (0:ℚ) < (d1 : ℚ) := by exact_mod_cast h1
  have hd2 : (0:ℚ) < (d2 : ℚ) := lt_of_lt_of_le hd1 (by exact_mod_cast h)
  have hx : u64ToF32 d1 ≤ u64ToF32 d2 :=
    roundF32_mono hd1 (by exact_mod_cast h)
  have hx1 : 0 < u64ToF32 d1 := roundF32_pos hd1
  have hy : f32Add (u64ToF32 d1) 1 ≤ f32Add (u64ToF32 d2) 1 :=
    roundF32_mono (by linarith) (by linarith)
  have hy1 : 0 < f32Add (u64ToF32 d1) 1 := roundF32_pos (by linarith)
  have hy2 : 0 < f32Add (u64ToF32 d2) 1 := lt_of_lt_of_le hy1 hy
  have hq : (1:ℚ) / f32Add (u64ToF32 d2) 1 ≤ 1 / f32Add (u64ToF32 d1) 1 :=
    one_div_le_one_div_of_le hy1 hy
  exact roundF32_mono (by positivity) hq

/-- The Term predicates' texts in iteration order; `RegexMatcher::new` walks
them to build `term_doc_freq_reciprocals` and `term_count`. -/
def termTexts (ps : List MatchPredicate) : List String :=
  ps.filterMap (fun p => match p with | .Term s => some s | _ => none)

/-- Whether a string occurs as a `Term` predicate of the set. -/
def isTermOf (ps : List MatchPredicate) (s : String) : Bool :=
  ps.any (fun p => p = .Term s)

/-- Insertion into a cache, modelled as function update. -/
def cacheInsert (cache : String → Option (Option DocFreqReciprocal)) (k : String)
    (v : Option DocFreqReciprocal) : String → Option (Option DocFreqReciprocal) :=
  fun s => if s = k then some v else cache s

/-- `HashMatcher` (src/token_matcher/hash_matcher.rs): an owned term →
reciprocal map and nothing else. -/
structure HashMatcher where
  term_doc_freq_reciprocals_map : String → Option DocFreqReciprocal

def HashMatcher.new (term_doc_freq_reciprocals_map : String → Option DocFreqReciprocal) :
    HashMatcher :=
  ⟨term_doc_freq_reciprocals_map⟩

/-- `HashMatcher::lookup_doc_freq_reciprocal`: a single key lookup; the
state is returned unchanged (the matcher has no cache to mutate). -/
def HashMatcher.lookup_doc_freq_reciprocal (self : HashMatcher) (token_text : String)
    (_get_doc_freq : String → Nat) : Option DocFreqReciprocal × HashMatcher :=
  (self.term_doc_freq_reciprocals_map token_text, self)

/-- `RegexMatcher` (src/token_matcher/regex_matcher.rs).  The compiled
regex is a pure function of the predicate set, which therefore stands in
for it; the per-token cache is explicit mutable state. -/
structure RegexMatcher where
  predicate_set : List MatchPredicate
  term_count : Nat
  term_doc_freq_reciprocals : List (Option DocFreqReciprocal)
  pattern_doc_freq_cache : String → Option (Option DocFreqReciprocal)

/-- `RegexMatcher::new`: walk the predicate set once, collecting for every
`Term` its reciprocal from the supplied map (position `i` of the vector is
the `i`-th Term in iteration order). -/
def RegexMatcher.new (predicate_set : List MatchPredicate)
    (term_doc_freq_reciprocals_map : String → Option DocFreqReciprocal) : RegexMatcher :=
  { predicate_set := predicate_set
    term_count := (termTexts predicate_set).length
    term_doc_freq_reciprocals :=
      (termTexts predicate_set).map term_doc_freq_reciprocals_map
    pattern_doc_freq_cache := fun _ => none }

/-- The fallback path of `RegexMatcher::lookup_doc_freq_reciprocal` taken
when no plain-term capture slot is populated: cache probe, then the
external frequency source, memoizing the outcome. -/
def RegexMatcher.patternLookup (self : RegexMatcher) (token_text : String)
    (get_doc_freq : String → Nat) : Option DocFreqReciprocal × RegexMatcher :=
  match self.pattern_doc_freq_cache token_text with
  | some pattern_doc_freq => (pattern_doc_freq, self)
  | none =>
      let doc_freq_reciprocal := DocFreqReciprocal.from_doc_freq (get_doc_freq token_text)
      (doc_freq_reciprocal,
        { self with pattern_doc_freq_cache :=
            cacheInsert self.pattern_doc_freq_cache token_text doc_freq_reciprocal })

/-- `RegexMatcher::lookup_doc_freq_reciprocal`: no regex match is a
terminal `None`; a populated capture slot among the first `term_count`
returns the precomputed reciprocal; otherwise fall back to the cache and
the external source. -/
def RegexMatcher.lookup_doc_freq_reciprocal (self : RegexMatcher) (token_text : String)
    (get_doc_freq : String → Nat) : Option DocFreqReciprocal × RegexMatcher :=
  if regex_matcher.regex_matches self.predicate_set token_text then
    match regex_matcher.captured_term_index self.predicate_set token_text with
    | some term_index =>
        if term_index < self.term_count then
          ((self.term_doc_freq_reciprocals[term_index]?).join, self)
        else self.patternLookup token_text get_doc_freq
    | none => self.patternLookup token_text get_doc_freq
  else (none, self)

/-- `AutomatonMatcher` (src/token_matcher/automaton_matcher.rs).  The
shared compiled automaton is a pure function of the predicate set, which
therefore stands in for it. -/
structure AutomatonMatcher where
  predicate_set : List MatchPredicate
  doc_freq_cache : String → Option (Option DocFreqReciprocal)

/-- `AutomatonMatcher::new`: pre-populate the cache with every `Term`'s
reciprocal from the supplied map. -/
def AutomatonMatcher.new (predicate_set : List MatchPredicate)
    (term_doc_freq_reciprocals : String → Option DocFreqReciprocal) : AutomatonMatcher :=
  { predicate_set := predicate_set
    doc_freq_cache := fun s =>
      if isTermOf predicate_set s then some (term_doc_freq_reciprocals s) else none }

/-- `AutomatonMatcher::lookup_doc_freq_reciprocal`: run `find`; a missing or
short match is a terminal `None`; otherwise probe the cache and fall back to
the external source, memoizing the outcome. -/
def AutomatonMatcher.lookup_doc_freq_reciprocal (self : AutomatonMatcher)
    (token_text : String) (get_doc_freq : String → Nat) :
    Option DocFreqReciprocal × AutomatonMatcher :=
  match automaton_matcher.dfaFind
      (automaton_matcher.automatonRE self.predicate_set) token_text.data with
  | none => (none, self)
  | some match_length =>
      if match_length < token_text.data.length then (none, self)
      else
        match self.doc_freq_cache token_text with
        | some doc_freq_reciprocal => (doc_freq_reciprocal, self)
        | none =>
            let doc_freq_reciprocal :=
              DocFreqReciprocal.from_doc_freq (get_doc_freq token_text)
            (doc_freq_reciprocal,
              { self with doc_freq_cache :=
                  cacheInsert self.doc_freq_cache token_text doc_freq_reciprocal })

/-- `test_util::term_doc_freq_reciprocals_from_predicate_set`: the map used
when a matcher is "built from P": every Term maps to the reciprocal of doc
frequency 1. -/
def term_doc_freq_reciprocals_from_predicate_set (ps : List MatchPredicate) :
    String → Option DocFreqReciprocal :=
  fun s => if isTermOf ps s then DocFreqReciprocal.from_doc_freq 1 else none

def isLiteralNode : Option PatternASTNode → Bool
  | some (.Literal _) => true
  | _ => false

def isWildcardNode : Option PatternASTNode → Bool
  | some .Wildcard => true
  | _ => false

/-- Degenerate predicates per the spec: an empty pattern, or a pattern
consisting of a single Wildcard node. -/
def degenerate : MatchPredicate → Bool
  | .Pattern ⟨[]⟩ => true
  | .Pattern ⟨[.Wildcard]⟩ => true
  | _ => false

/-- Spec-side routing to `terms`: Term predicates and length-1
single-Literal patterns. -/
def specTermsOf : MatchPredicate → Option String
  | .Term s => some s
  | .Pattern ⟨[.Literal s]⟩ => some s
  | _ => none

/-- Spec-side routing to `terms_wc`: literal first node, wildcard last
node, length ≥ 2; trailing wildcard stripped. -/
def specTermsWcOf : MatchPredicate → Option (List PatternASTNode)
  | .Term _ => none
  | .Pattern ⟨nodes⟩ =>
      if 2 ≤ nodes.length ∧ isLiteralNode nodes.head? ∧ isWildcardNode nodes.getLast?
      then some nodes.dropLast else none

/-- Spec-side routing to `terms_internal_wc`: literal at both ends,
length ≥ 2, unmodified. -/
def specInternalWcOf : MatchPredicate → Option (List PatternASTNode)
  | .Term _ => none
  | .Pattern ⟨nodes⟩ =>
      if 2 ≤ nodes.length ∧ isLiteralNode nodes.head? ∧ isLiteralNode nodes.getLast?
      then some nodes else none

/-- Spec-side routing to `wc_terms`: leading wildcard, literal last node,
length ≥ 2; leading wildcard stripped. -/
def specWcTermsOf : MatchPredicate → Option (List PatternASTNode)
  | .Term _ => none
  | .Pattern ⟨nodes⟩ =>
      if 2 ≤ nodes.length ∧ isWildcardNode nodes.head? ∧ isLiteralNode nodes.getLast?
      then some nodes.tail else none

/-- Spec-side routing to `wc_terms_wc`: wildcard at both ends, length ≥ 2;
both stripped. -/
def specWcTermsWcOf : MatchPredicate → Option (List PatternASTNode)
  | .Term _ => none
  | .Pattern ⟨nodes⟩ =>
      if 2 ≤ nodes.length ∧ isWildcardNode nodes.head? ∧ isWildcardNode nodes.getLast?
      then some nodes.tail.dropLast else none

/-- The classifier as the spec describes it: five independent filters, each
preserving iteration order. -/
def groupSpec (ps : List MatchPredicate) : GroupedPatterns :=
  ⟨ps.filterMap specTermsOf, ps.filterMap specTermsWcOf,
    ps.filterMap specInternalWcOf, ps.filterMap specWcTermsOf,
    ps.filterMap specWcTermsWcOf⟩

def optCons {α : Type} : Option α → List α → List α
  | none, l => l
  | some a, l => a :: l

theorem optCons_length {α : Type} (o : Option α) (l : List α) :
    (optCons o l).length = o.toList.length + l.length := by
  cases o <;> simp [optCons, Nat.add_comm]

theorem filterMap_cons_optCons {α β : Type} (f : α → Option β) (p : α)
    (rest : List α) : (p :: rest).filterMap f = optCons (f p) (rest.filterMap f) := by
  cases h : f p <;> simp [List.filterMap_cons, h, optCons]

theorem groupInsert_eq (p : MatchPredicate) (g : GroupedPatterns) :
    groupInsert p g =
      ⟨optCons (specTermsOf p) g.terms, optCons (specTermsWcOf p) g.terms_wc,
        optCons (specInternalWcOf p) g.terms_internal_wc,
        optCons (specWcTermsOf p) g.wc_terms,
        optCons (specWcTermsWcOf p) g.wc_terms_wc⟩ := by
  match p with
  | .Term s => rfl
  | .Pattern ⟨[]⟩ => rfl
  | .Pattern ⟨[.Literal s]⟩ => rfl
  | .Pattern ⟨[.Wildcard]⟩ => rfl
  | .Pattern ⟨a :: b :: l⟩ =>
      obtain ⟨x, hx⟩ : ∃ x, (b :: l).getLast? = some x := by
        cases hg : (b :: l).getLast? with
        | none => exact absurd (List.getLast?_eq_none_iff.mp hg) (by simp)
        | some x => exact ⟨x, rfl⟩
      cases a <;> cases x <;>
        simp [groupInsert, specTermsOf, specTermsWcOf, specInternalWcOf,
          specWcTermsOf, specWcTermsWcOf, optCons, List.getLast?_cons_cons, hx,
          isLiteralNode, isWildcardNode, Nat.le_add_left]

theorem group_eq_groupSpec (ps : List MatchPredicate) :
    GroupedPatterns.group ps = groupSpec ps := by
  induction ps with
  | nil => rfl
  | cons p rest ih =>
      show groupInsert p (GroupedPatterns.group rest) = _
      rw [groupInsert_eq, ih]
      simp [groupSpec, filterMap_cons_optCons]

theorem specHits (p : MatchPredicate) :
    (specTermsOf p).toList.length + (specTermsWcOf p).toList.length +
      (specInternalWcOf p).toList.length + (specWcTermsOf p).toList.length +
      (specWcTermsWcOf p).toList.length = if degenerate p then 0 else 1 := by
  match p with
  | .Term s => rfl
  | .Pattern ⟨[]⟩ => rfl
  | .Pattern ⟨[.Literal s]⟩ => rfl
  | .Pattern ⟨[.Wildcard]⟩ => rfl
  | .Pattern ⟨a :: b :: l⟩ =>
      obtain ⟨x, hx⟩ : ∃ x, (b :: l).getLast? = some x := by
        cases hg : (b :: l).getLast? with
        | none => exact absurd (List.getLast?_eq_none_iff.mp hg) (by simp)
        | some x => exact ⟨x, rfl⟩
      cases a <;> cases x <;>
        simp [degenerate, specTermsOf, specTermsWcOf, specInternalWcOf,
          specWcTermsOf, specWcTermsWcOf, List.getLast?_cons_cons, hx,
          isLiteralNode, isWildcardNode, Nat.le_add_left]

theorem group_total (ps : List MatchPredicate) :
    (GroupedPatterns.group ps).terms.length
      + (GroupedPatterns.group ps).terms_wc.length
      + (GroupedPatterns.group ps).terms_internal_wc.length
      + (GroupedPatterns.group ps).wc_terms.length
      + (GroupedPatterns.group ps).wc_terms_wc.length
      + ps.countP (fun p => degenerate p) = ps.length := by
  induction ps with
  | nil => rfl
  | cons p rest ih =>
      have hg : GroupedPatterns.group (p :: rest)
          = groupInsert p (GroupedPatterns.group rest) := rfl
      rw [hg, groupInsert_eq]
      have hh := specHits p
      rw [List.countP_cons]
      simp only [optCons_length, List.length_cons]
      by_cases hd : degenerate p = true
      · simp only [if_pos hd] at hh ⊢
        omega
      · simp only [if_neg hd] at hh ⊢
        omega

/-- C2: for every predicate set, `GroupedPatterns::group` places every
predicate in exactly one of the five groups — it coincides with the
spec-side classification (`groupSpec`: Term or length-1 single-Literal to
`terms`; longer patterns routed by first/last node kind with
leading/trailing wildcards stripped), and the group sizes plus the number
of degenerate predicates (empty pattern or single Wildcard node, dropped
without panicking — the classifier is a total function) add up to the size
of the set. -/
theorem C2_classifier_partition (ps : List MatchPredicate) :
    GroupedPatterns.group ps = groupSpec ps ∧
    (GroupedPatterns.group ps).terms.length
      + (GroupedPatterns.group ps).terms_wc.length
      + (GroupedPatterns.group ps).terms_internal_wc.length
      + (GroupedPatterns.group ps).wc_terms.length
      + (GroupedPatterns.group ps).wc_terms_wc.length
      + ps.countP (fun p => degenerate p) = ps.length :=
  ⟨group_eq_groupSpec ps, group_total ps⟩

/-- C7 counterexample: the scorer does not return exactly `1/3` for
doc_freq = 2 (it returns the nearest representable `f32`,
`11184811/2^25`), and it is not strictly decreasing: doc_freq `2^24` and
`2^24 + 1` yield the identical weight. -/
theorem C7_counterexample :
    (DocFreqReciprocal.from_doc_freq 2).map DocFreqReciprocal.val ≠ some (1/3) ∧
    DocFreqReciprocal.from_doc_freq 16777216
      = DocFreqReciprocal.from_doc_freq 16777217 := by
  constructor
  · rw [from_doc_freq_two]
    simp only [Option.map_some', Option.some.injEq]
    norm_num
  · rw [from_doc_freq_p24, from_doc_freq_p24_succ]

/-- C7 (amended): `from_doc_freq` returns exactly `0.5` for doc_freq 1,
the `f32` nearest to `1/3` (namely `11184811/33554432`, not exactly `1/3`)
for doc_freq 2, `None` for doc_freq 0, and is weakly decreasing: for
`1 ≤ d1 < d2` the score of `d2` is at most (not always strictly below) the
score of `d1`. -/
theorem C7_scorer_values_and_antitone :
    DocFreqReciprocal.from_doc_freq 1 = some ⟨1/2⟩ ∧
    DocFreqReciprocal.from_doc_freq 2 = some ⟨11184811/33554432⟩ ∧
    DocFreqReciprocal.from_doc_freq 0 = none ∧
    ∀ d1 d2 : Nat, 1 ≤ d1 → d1 < d2 →
      ∀ v1 v2 : DocFreqReciprocal,
        DocFreqReciprocal.from_doc_freq d1 = some v1 →
        DocFreqReciprocal.from_doc_freq d2 = some v2 → v2.val ≤ v1.val :=
  ⟨from_doc_freq_one, from_doc_freq_two, from_doc_freq_zero,
    fun _ _ h1 h2 _ _ hv1 hv2 => from_doc_freq_antitone h1 (le_of_lt h2) hv1 hv2⟩

/-- C7 witness: the amended monotonicity conjunct applied at
`d1 = 1 < d2 = 2`. -/
theorem C7_scorer_values_and_antitone_witness :
    (11184811/33554432 : ℚ) ≤ 1/2 := by
  have h := C7_scorer_values_and_antitone.2.2.2 1 2 (le_refl 1) (by norm_num)
    ⟨1/2⟩ ⟨11184811/33554432⟩ C7_scorer_values_and_antitone.1
    C7_scorer_values_and_antitone.2.1
  simpa using h

/-- C10: for a token equal to a Term of the predicate set, the automaton
matcher's lookup result does not depend on the external frequency source:
the cache is pre-populated with every Term's reciprocal at construction,
so the source is never consulted for such tokens. -/
theorem C10_automaton_term_lookup_source_independent
    (ps : List MatchPredicate) (m : String → Option DocFreqReciprocal)
    (t : String) (g1 g2 : String → Nat) (h : isTermOf ps t = true) :
    ((AutomatonMatcher.new ps m).lookup_doc_freq_reciprocal t g1).1
      = ((AutomatonMatcher.new ps m).lookup_doc_freq_reciprocal t g2).1 := by
  unfold AutomatonMatcher.lookup_doc_freq_reciprocal
  cases hf : automaton_matcher.dfaFind
      (automaton_matcher.automatonRE (AutomatonMatcher.new ps m).predicate_set)
      t.data with
  | none => rfl
  | some len =>
      by_cases hl : len < t.data.length
      · simp only [if_pos hl]
      · have hc : (AutomatonMatcher.new ps m).doc_freq_cache t = some (m t) := by
          simp [AutomatonMatcher.new, h]
        simp only [if_neg hl, hc]

/-- The five pattern groups, as tags. -/
inductive GroupTag where
  | terms
  | terms_wc
  | terms_internal_wc
  | wc_terms
  | wc_terms_wc
deriving DecidableEq

/-- The join order the claim asserts for both backends. -/
def claimedOrder : List GroupTag :=
  [.terms, .terms_wc, .terms_internal_wc, .wc_terms, .wc_terms_wc]

/-- The join order the regex backend actually uses
(src/token_matcher/regex_matcher.rs, `generate_regex_pattern`):
`terms_internal_wc` precedes `terms_wc`. -/
def regexActualOrder : List GroupTag :=
  [.terms, .terms_internal_wc, .terms_wc, .wc_terms, .wc_terms_wc]

namespace regex_matcher

/-- The regex backend's synthesized sub-expression for one group. -/
def group_sub_expr (groups : GroupedPatterns) (wildcard_expr : String) :
    GroupTag → Option String
  | .terms =>
      if groups.terms.length > 0 then
        some (String.intercalate "|" (groups.terms.map
          (fun term => "^(" ++ escape term ++ ")$")))
      else none
  | .terms_internal_wc =>
      if groups.terms_internal_wc.length > 0 then
        some (String.intercalate "|" (groups.terms_internal_wc.filterMap
          (fun pattern => (pattern_to_regex_expr pattern wildcard_expr).map
            (fun expr => "^" ++ expr ++ "$"))))
      else none
  | .terms_wc =>
      if groups.terms_wc.length > 0 then
        some (String.intercalate "|" (groups.terms_wc.filterMap
          (fun pattern => (pattern_to_regex_expr pattern wildcard_expr).map
            (fun expr => "^" ++ expr))))
      else none
  | .wc_terms =>
      if groups.wc_terms.length > 0 then
        some (String.intercalate "|" (groups.wc_terms.filterMap
          (fun pattern => (pattern_to_regex_expr pattern wildcard_expr).map
            (fun expr => expr ++ "$"))))
      else none
  | .wc_terms_wc =>
      if groups.wc_terms_wc.length > 0 then
        some (String.intercalate "|" (groups.wc_terms_wc.filterMap
          (fun pattern => pattern_to_regex_expr pattern wildcard_expr)))
      else none

theorem filterMap_regexActualOrder (f : GroupTag → Option String) :
    regexActualOrder.filterMap f
      = List.filterMap id [f .terms, f .terms_internal_wc, f .terms_wc,
          f .wc_terms, f .wc_terms_wc] := by
  cases h1 : f .terms <;> cases h2 : f .terms_internal_wc <;> cases h3 : f .terms_wc <;>
    cases h4 : f .wc_terms <;> cases h5 : f .wc_terms_wc <;>
    simp [regexActualOrder, List.filterMap_cons, h1, h2, h3, h4, h5]

theorem generate_regex_eq_ordered (ps : List MatchPredicate) (wc : String) :
    generate_regex_pattern ps wc = String.intercalate "|"
      (regexActualOrder.filterMap (group_sub_expr (GroupedPatterns.group ps) wc)) := by
  rw [filterMap_regexActualOrder (group_sub_expr (GroupedPatterns.group ps) wc)]
  rfl

end regex_matcher

namespace automaton_matcher

/-- The automaton backend's synthesized sub-expression for one group. -/
def group_sub_expr (groups : GroupedPatterns) (wildcard_expr : String) :
    GroupTag → Option String
  | .terms =>
      if groups.terms.length > 0 then
        some (String.intercalate "|" (groups.terms.map escape))
      else none
  | .terms_wc =>
      if groups.terms_wc.length > 0 then
        some ("((" ++ pattern_asts_to_regex_string groups.terms_wc wildcard_expr ++ ")"
          ++ wildcard_expr ++ ")")
      else none
  | .terms_internal_wc =>
      if groups.terms_internal_wc.length > 0 then
        some (pattern_asts_to_regex_string groups.terms_internal_wc wildcard_expr)
      else none
  | .wc_terms =>
      if groups.wc_terms.length > 0 then
        some ("(" ++ wildcard_expr ++ "("
          ++ pattern_asts_to_regex_string groups.wc_terms wildcard_expr ++ "))")
      else none
  | .wc_terms_wc =>
      if groups.wc_terms_wc.length > 0 then
        some ("(" ++ wildcard_expr ++ "("
          ++ pattern_asts_to_regex_string groups.wc_terms_wc wildcard_expr ++ ")"
          ++ wildcard_expr ++ ")")
      else none

theorem filterMap_claimedOrder (f : GroupTag → Option String) :
    claimedOrder.filterMap f
      = List.filterMap id [f .terms, f .terms_wc, f .terms_internal_wc,
          f .wc_terms, f .wc_terms_wc] := by
  cases h1 : f .terms <;> cases h2 : f .terms_wc <;> cases h3 : f .terms_internal_wc <;>
    cases h4 : f .wc_terms <;> cases h5 : f .wc_terms_wc <;>
    simp [claimedOrder, List.filterMap_cons, h1, h2, h3, h4, h5]

theorem generate_automaton_eq_ordered (ps : List MatchPredicate) (wc : String) :
    generate_regex_pattern ps wc = String.intercalate "|"
      (claimedOrder.filterMap (group_sub_expr (GroupedPatterns.group ps) wc)) := by
  rw [filterMap_claimedOrder (group_sub_expr (GroupedPatterns.group ps) wc)]
  rfl

end automaton_matcher

/-- Predicate set exposing the regex backend's join order: one `lit*`
pattern and one `lit*lit` pattern (in set order). -/
def psOrderProbe : List MatchPredicate :=
  [.Pattern ⟨[.Literal "c", .Wildcard]⟩,
   .Pattern ⟨[.Literal "e", .Wildcard, .Literal "f"]⟩]

/-- C3 counterexample: on a set with one `terms_wc` and one
`terms_internal_wc` pattern, the regex backend emits the
`terms_internal_wc` sub-expression first — it does not join in the claimed
order `terms → terms_wc → terms_internal_wc → wc_terms → wc_terms_wc`. -/
theorem C3_counterexample :
    regex_matcher.generate_regex_pattern psOrderProbe ".*" = "^e.*f$|^c" ∧
    String.intercalate "|" (claimedOrder.filterMap
        (regex_matcher.group_sub_expr (GroupedPatterns.group psOrderProbe) ".*"))
      = "^c|^e.*f$" ∧
    regex_matcher.generate_regex_pattern psOrderProbe ".*"
      ≠ String.intercalate "|" (claimedOrder.filterMap
        (regex_matcher.group_sub_expr (GroupedPatterns.group psOrderProbe) ".*")) :=
  ⟨by decide, by decide, by decide⟩

/-- C3 (amended): the automaton backend joins the non-empty group
sub-expressions in the claimed fixed order terms → terms_wc →
terms_internal_wc → wc_terms → wc_terms_wc, but the regex backend joins in
the order terms → terms_internal_wc → terms_wc → wc_terms → wc_terms_wc. -/
theorem C3_join_order (ps : List MatchPredicate) (wildcard_expr : String) :
    automaton_matcher.generate_regex_pattern ps wildcard_expr
      = String.intercalate "|" (claimedOrder.filterMap
          (automaton_matcher.group_sub_expr (GroupedPatterns.group ps) wildcard_expr)) ∧
    regex_matcher.generate_regex_pattern ps wildcard_expr
      = String.intercalate "|" (regexActualOrder.filterMap
          (regex_matcher.group_sub_expr (GroupedPatterns.group ps) wildcard_expr)) :=
  ⟨automaton_matcher.generate_automaton_eq_ordered ps wildcard_expr,
    regex_matcher.generate_regex_eq_ordered ps wildcard_expr⟩

/-- Extractor for length-1 single-Literal patterns. -/
def len1Of : MatchPredicate → Option String
  | .Pattern ⟨[.Literal s]⟩ => some s
  | _ => none

/-- Texts of length-1 single-Literal patterns, in iteration order. -/
def len1LiteralTexts (ps : List MatchPredicate) : List String :=
  ps.filterMap len1Of

theorem specTermsOf_pattern (a : PatternAST) :
    specTermsOf (.Pattern a) = len1Of (.Pattern a) := by
  match a with
  | ⟨[]⟩ => rfl
  | ⟨[.Literal s]⟩ => rfl
  | ⟨[.Wildcard]⟩ => rfl
  | ⟨x :: y :: t⟩ => cases x <;> rfl

/-- In a sorted predicate set the `terms` group is the Term texts (in set
order) followed by the length-1 single-Literal pattern texts: every `Term`
sorts before every `Pattern`. -/
theorem sorted_terms_split : ∀ {ps : List MatchPredicate}, PredicateSetSorted ps →
    ps.filterMap specTermsOf = termTexts ps ++ len1LiteralTexts ps := by
  intro ps
  induction ps with
  | nil => intro _; rfl
  | cons p rest ih =>
      intro h
      obtain ⟨hall, hrest⟩ := List.pairwise_cons.mp h
      cases p with
      | Term s =>
          rw [filterMap_cons_optCons, ih hrest]
          simp [termTexts, len1LiteralTexts, List.filterMap_cons, specTermsOf,
            optCons, len1Of]
      | Pattern a =>
          have hnoterm : ∀ q ∈ rest, ∀ s, q ≠ MatchPredicate.Term s := by
            intro q hq s hqs
            subst hqs
            have := hall _ hq
            simp [MatchPredicate.lt] at this
          have htt : termTexts rest = [] := by
            rw [termTexts, List.filterMap_eq_nil_iff]
            intro q hq
            cases q with
            | Term s => exact absurd rfl (hnoterm _ hq s)
            | Pattern b => rfl
          rw [filterMap_cons_optCons, ih hrest, htt, specTermsOf_pattern]
          cases hl : len1Of (.Pattern a) <;>
            simp [termTexts, len1LiteralTexts, List.filterMap_cons, optCons, hl, htt]
          all_goals
            intro q hq
            cases q with
            | Term s => exact absurd rfl (hnoterm _ hq s)
            | Pattern b => rfl

/-- Predicate set for the C9 witness: a Term whose text sorts after the
length-1 pattern literal, yet the Term still comes first in set order. -/
def psTermAndLen1 : List MatchPredicate := [.Term "b", .Pattern ⟨[.Literal "a"]⟩]

/-- C9: in `BTreeSet` order every Term sorts before every Pattern, so for a
sorted predicate set the classifier's `terms` group is the Term texts
followed by the length-1 single-Literal pattern texts; consequently the
first `term_count` entries are exactly the Term texts, and
`RegexMatcher::new`'s `term_doc_freq_reciprocals` vector is the map's image
of those texts — aligned index-for-index with the first `term_count`
capture groups. -/
theorem C9_term_capture_alignment (ps : List MatchPredicate)
    (m : String → Option DocFreqReciprocal) (h : PredicateSetSorted ps) :
    (∀ s a, MatchPredicate.lt (.Term s) (.Pattern a) = true) ∧
    (GroupedPatterns.group ps).terms = termTexts ps ++ len1LiteralTexts ps ∧
    (GroupedPatterns.group ps).terms.take (RegexMatcher.new ps m).term_count
      = termTexts ps ∧
    (RegexMatcher.new ps m).term_doc_freq_reciprocals = (termTexts ps).map m := by
  have hterms : (GroupedPatterns.group ps).terms = termTexts ps ++ len1LiteralTexts ps := by
    rw [group_eq_groupSpec]
    exact sorted_terms_split h
  refine ⟨fun s a => rfl, hterms, ?_, rfl⟩
  rw [hterms]
  show (termTexts ps ++ len1LiteralTexts ps).take (termTexts ps).length = termTexts ps
  exact List.take_left (termTexts ps) (len1LiteralTexts ps)

/-- C9 witness: on `{Term "b", Pattern ["a"]}` — which is in set order even
though "a" < "b" — the terms group is `["b", "a"]`, and the first
`term_count = 1` entries are exactly the Term texts. -/
theorem C9_term_capture_alignment_witness :
    (GroupedPatterns.group psTermAndLen1).terms = ["b", "a"] ∧
    (GroupedPatterns.group psTermAndLen1).terms.take
        (RegexMatcher.new psTermAndLen1 (fun _ => none)).term_count = ["b"] := by
  have h := C9_term_capture_alignment psTermAndLen1 (fun _ => none) (by decide)
  refine ⟨?_, ?_⟩
  · rw [h.2.1]; rfl
  · rw [h.2.2.1]; rfl

theorem bool_eq_decide {b : Bool} {P : Prop} [Decidable P] (h : b = true ↔ P) :
    b = decide P := by
  cases hb : b
  · have hp : ¬P := fun hp => by rw [h.mpr hp] at hb; cases hb
    simp [hp]
  · simp [h.mp hb]

theorem wildcardLo_le (c : Char) : wildcardLo ≤ c := by
  change (Char.ofNat 0).val ≤ c.val
  exact Fin.zero_le _

/-- Whole-token acceptance of an alternation of term literals is exact
equality with one of the terms. -/
theorem lang_altList_lits {terms : List String} (h : terms ≠ []) (t : String) :
    RE.Lang (RE.altList (terms.map (fun term => RE.lit term.data))) t.data
      ↔ t ∈ terms := by
  rw [RE.lang_altList (by simpa using h)]
  constructor
  · rintro ⟨r, hr, hlang⟩
    rcases List.mem_map.mp hr with ⟨term, hterm, rfl⟩
    rw [RE.lang_lit_iff] at hlang
    rw [String.ext hlang]
    exact hterm
  · intro ht
    exact ⟨RE.lit t.data, List.mem_map.mpr ⟨t, ht, rfl⟩, RE.Lang.lit t.data⟩

def isTermPred : MatchPredicate → Bool
  | .Term _ => true
  | .Pattern _ => false

theorem isTermOf_iff_mem_termTexts (ps : List MatchPredicate) (s : String) :
    isTermOf ps s = true ↔ s ∈ termTexts ps := by
  induction ps with
  | nil => simp [isTermOf, termTexts]
  | cons p rest ih =>
      cases p with
      | Term s' =>
          simp [isTermOf, termTexts, List.filterMap_cons, List.any_cons] at ih ⊢
          constructor
          · rintro (h | h)
            · exact Or.inl h.symm
            · exact Or.inr (ih.mp h)
          · rintro (h | h)
            · exact Or.inl h.symm
            · exact Or.inr (ih.mpr h)
      | Pattern a =>
          simp [isTermOf, termTexts, List.filterMap_cons, List.any_cons] at ih ⊢
          exact ih

/-- On a Terms-only predicate set the classifier fills only `terms`. -/
theorem group_terms_only : ∀ {ps : List MatchPredicate},
    (∀ p ∈ ps, isTermPred p = true) →
    GroupedPatterns.group ps = ⟨termTexts ps, [], [], [], []⟩ := by
  intro ps
  induction ps with
  | nil => intro _; rfl
  | cons p rest ih =>
      intro h
      cases p with
      | Term s =>
          have hrest : ∀ p ∈ rest, isTermPred p = true :=
            fun p hp => h p (List.mem_cons_of_mem _ hp)
          show groupInsert (.Term s) (GroupedPatterns.group rest) = _
          rw [ih hrest]
          rfl
      | Pattern a =>
          have := h (.Pattern a) (List.mem_cons_self _ _)
          simp [isTermPred] at this

/-- A matcher whose automaton reports no full-length match returns `None`
without touching the cache or the frequency source. -/
theorem automaton_lookup_no_match (am : AutomatonMatcher) (t : String)
    (g : String → Nat)
    (h : automaton_matcher.automaton_matches am.predicate_set t = false) :
    (am.lookup_doc_freq_reciprocal t g).1 = none := by
  unfold automaton_matcher.automaton_matches at h
  unfold AutomatonMatcher.lookup_doc_freq_reciprocal
  cases hf : automaton_matcher.dfaFind
      (automaton_matcher.automatonRE am.predicate_set) t.data with
  | none => rfl
  | some len =>
      rw [hf] at h
      simp only [] at h ⊢
      by_cases hl : len < t.data.length
      · rw [if_pos hl]
      · rw [if_neg hl] at h
        cases h

theorem accepts_lit_eq_decide (lit t : String) :
    RE.accepts (RE.lit lit.data) t.data = decide (t = lit) := by
  apply bool_eq_decide
  rw [RE.accepts_iff_lang, RE.lang_lit_iff]
  exact ⟨fun h => String.ext h, fun h => by rw [h]⟩

/-- C4: a Term predicate matches the whole token and nothing else.  In the
synthesized strings: the regex backend wraps the term in `^(...)$` (the
engine searches substrings by default), while the automaton backend emits
the bare escaped literal (anchoring is enabled at the builder API level and
full-length verification happens in the matcher).  In the engine models,
the matcher built from `{Term lit}` accepts a token iff it equals `lit`:
tokens containing the term only as a prefix or substring do not match. -/
theorem C4_term_matches_whole_token_only (lit t : String) :
    regex_matcher.generate_regex_pattern [.Term lit] WILDCARD_EXPR
      = "^(" ++ escape lit ++ ")$" ∧
    automaton_matcher.generate_regex_pattern [.Term lit] WILDCARD_EXPR = escape lit ∧
    regex_matcher.regex_matches [.Term lit] t = decide (t = lit) ∧
    automaton_matcher.automaton_matches [.Term lit] t = decide (t = lit) := by
  refine ⟨rfl, rfl, ?_, ?_⟩
  · have h1 : regex_matcher.regex_matches [.Term lit] t
        = RE.accepts (RE.lit lit.data) t.data := rfl
    rw [h1, accepts_lit_eq_decide]
  · rw [automaton_matcher.automaton_matches_iff_accepts]
    have h2 : automaton_matcher.automatonRE [.Term lit] = RE.lit lit.data := rfl
    rw [h2, accepts_lit_eq_decide]

theorem lang_lit_wc_lit {u v : List Char} {lo hi : Char} {s : List Char} :
    RE.Lang (.cat (.lit u) (.cat (.star (.cls lo hi)) (.lit v))) s
      ↔ ∃ m, s = u ++ m ++ v ∧ ∀ c ∈ m, lo ≤ c ∧ c ≤ hi := by
  rw [RE.lang_cat_iff]
  constructor
  · rintro ⟨s1, s2, rfl, h1, h2⟩
    rw [RE.lang_lit_iff] at h1
    subst h1
    rw [RE.lang_cat_iff] at h2
    rcases h2 with ⟨m, s3, rfl, hm, hv⟩
    rw [RE.lang_lit_iff] at hv
    subst hv
    rw [RE.lang_star_cls] at hm
    exact ⟨m, by simp [List.append_assoc], hm⟩
  · rintro ⟨m, rfl, hm⟩
    refine ⟨u, m ++ v, by simp [List.append_assoc], RE.Lang.lit u, ?_⟩
    exact RE.lang_cat_iff.mpr ⟨m, v, rfl, RE.lang_star_cls.mpr hm, RE.Lang.lit v⟩

/-- Decomposing "starts with u, ends with v, long enough, middle satisfies
P" into the explicit three-way split. -/
theorem middle_decomp {u v s : List Char} (P : List Char → Prop) :
    (∃ m, s = u ++ m ++ v ∧ P m) ↔
      (u <+: s ∧ v <:+ s ∧ u.length + v.length ≤ s.length ∧
        P ((s.drop u.length).take (s.length - u.length - v.length))) := by
  constructor
  · rintro ⟨m, rfl, hP⟩
    have hdrop : ((u ++ m ++ v).drop u.length) = m ++ v := by
      rw [List.append_assoc]
      exact List.drop_left u (m ++ v)
    have hlen : (u ++ m ++ v).length - u.length - v.length = m.length := by
      simp only [List.length_append]
      omega
    refine ⟨⟨m ++ v, (List.append_assoc u m v).symm⟩, ⟨u ++ m, rfl⟩,
      by simp only [List.length_append]; omega, ?_⟩
    rw [hdrop, hlen, List.take_left]
    exact hP
  · rintro ⟨⟨a, ha⟩, ⟨b, hb⟩, hlen, hP⟩
    subst ha
    refine ⟨((u ++ a).drop u.length).take ((u ++ a).length - u.length - v.length),
      ?_, hP⟩
    have hm : ((u ++ a).drop u.length).take ((u ++ a).length - u.length - v.length)
        = a.take (a.length - v.length) := by
      rw [List.drop_left]
      congr 1
      simp only [List.length_append]
      omega
    have hv : a.drop (a.length - v.length) = v := by
      have h1 : a.drop (a.length - v.length)
          = (u ++ a).drop (u.length + (a.length - v.length)) := by
        rw [← List.drop_drop, List.drop_left]
      have hlb : (b ++ v).length = (u ++ a).length := by rw [hb]
      simp only [List.length_append] at hlb hlen
      have h2 : u.length + (a.length - v.length) = b.length := by omega
      rw [h1, ← hb, h2]
      exact List.drop_left b v
    rw [hm]
    calc u ++ a
        = u ++ (a.take (a.length - v.length) ++ a.drop (a.length - v.length)) := by
          rw [List.take_append_drop]
      _ = u ++ a.take (a.length - v.length) ++ v := by
          rw [hv, List.append_assoc]

/-- C5 (amended): a `[lit1, Wildcard, lit2]` pattern matches a token iff it
starts with lit1, ends with lit2, has length at least
`len(lit1) + len(lit2)`, and — the condition the claim omits — every
character between the prefix and the suffix lies in the wildcard class
U+0000..U+024F; both compiled backends agree on this. -/
theorem C5_internal_wildcard (l1 l2 t : String) :
    (regex_matcher.regex_matches
        [.Pattern ⟨[.Literal l1, .Wildcard, .Literal l2]⟩] t = true
      ↔ (l1.data <+: t.data ∧ l2.data <:+ t.data ∧
          l1.length + l2.length ≤ t.length ∧
          ∀ c ∈ (t.data.drop l1.length).take (t.length - l1.length - l2.length),
            wildcardLo ≤ c ∧ c ≤ wildcardHi)) ∧
    automaton_matcher.automaton_matches
        [.Pattern ⟨[.Literal l1, .Wildcard, .Literal l2]⟩] t
      = regex_matcher.regex_matches
        [.Pattern ⟨[.Literal l1, .Wildcard, .Literal l2]⟩] t := by
  have h1 : regex_matcher.regex_matches
      [.Pattern ⟨[.Literal l1, .Wildcard, .Literal l2]⟩] t
      = RE.accepts (.cat (.lit l1.data)
          (.cat (.star (.cls wildcardLo wildcardHi)) (.lit l2.data))) t.data := rfl
  have h2 : automaton_matcher.automatonRE
      [.Pattern ⟨[.Literal l1, .Wildcard, .Literal l2]⟩]
      = .cat (.lit l1.data)
          (.cat (.star (.cls wildcardLo wildcardHi)) (.lit l2.data)) := rfl
  constructor
  · rw [h1, RE.accepts_iff_lang, lang_lit_wc_lit,
      middle_decomp (fun m => ∀ c ∈ m, wildcardLo ≤ c ∧ c ≤ wildcardHi)]
    exact Iff.rfl
  · rw [automaton_matcher.automaton_matches_iff_accepts, h2, h1]

/-- C5 counterexample: token "fαr" starts with "f", ends with "r" and has
length 3 ≥ 2, yet neither backend matches it against the pattern `f*r`,
because 'α' (U+03B1) lies outside the wildcard class U+0000..U+024F. -/
theorem C5_internal_wildcard_counterexample :
    ("f".data <+: "fαr".data ∧ "r".data <:+ "fαr".data ∧
      "f".length + "r".length ≤ "fαr".length) ∧
    regex_matcher.regex_matches
      [.Pattern ⟨[.Literal "f", .Wildcard, .Literal "r"]⟩] "fαr" = false ∧
    automaton_matcher.automaton_matches
      [.Pattern ⟨[.Literal "f", .Wildcard, .Literal "r"]⟩] "fαr" = false :=
  ⟨by decide, by decide, by decide⟩

theorem termTexts_ne_nil {ps : List MatchPredicate} (hne : ps ≠ [])
    (hterm : ∀ p ∈ ps, isTermPred p = true) : termTexts ps ≠ [] := by
  cases ps with
  | nil => exact absurd rfl hne
  | cons p rest =>
      cases p with
      | Term s => simp [termTexts, List.filterMap_cons]
      | Pattern a =>
          have := hterm (.Pattern a) (List.mem_cons_self _ _)
          simp [isTermPred] at this

theorem branchREs_terms_only {ps : List MatchPredicate}
    (hterm : ∀ p ∈ ps, isTermPred p = true) (htne : termTexts ps ≠ []) :
    regex_matcher.branchREs ps
      = [RE.altList ((termTexts ps).map (fun term => RE.lit term.data))] := by
  unfold regex_matcher.branchREs
  rw [group_terms_only hterm]
  have hlen : 0 < (termTexts ps).length := List.length_pos.mpr htne
  simp [hlen]

theorem automatonRE_terms_only {ps : List MatchPredicate}
    (hterm : ∀ p ∈ ps, isTermPred p = true) (htne : termTexts ps ≠ []) :
    automaton_matcher.automatonRE ps
      = RE.altList ((termTexts ps).map (fun term => RE.lit term.data)) := by
  unfold automaton_matcher.automatonRE
  rw [group_terms_only hterm]
  have hlen : 0 < (termTexts ps).length := List.length_pos.mpr htne
  simp [hlen]
  rfl

theorem regex_matches_terms_only {ps : List MatchPredicate}
    (hterm : ∀ p ∈ ps, isTermPred p = true) (htne : termTexts ps ≠ [])
    (t : String) :
    regex_matcher.regex_matches ps t = decide (t ∈ termTexts ps) := by
  unfold regex_matcher.regex_matches
  rw [branchREs_terms_only hterm htne]
  apply bool_eq_decide
  show RE.accepts (RE.altList [RE.altList _]) t.data = true ↔ _
  rw [show RE.altList [RE.altList ((termTexts ps).map (fun term => RE.lit term.data))]
      = RE.altList ((termTexts ps).map (fun term => RE.lit term.data)) from rfl,
    RE.accepts_iff_lang]
  exact lang_altList_lits htne t

theorem isTermOf_eq_false_of_not_mem {ps : List MatchPredicate} {t : String}
    (h : t ∉ termTexts ps) : isTermOf ps t = false := by
  cases hh : isTermOf ps t
  · rfl
  · exact absurd ((isTermOf_iff_mem_termTexts ps t).mp hh) h

/-- The automaton backend's branch list, i.e. the alternation joined by
`automatonRE`. -/
def automatonBranches (predicate_set : List MatchPredicate) : List RE :=
  let groups := GroupedPatterns.group predicate_set
  let regex_exprs : List (Option RE) := [
    (if groups.terms.length > 0 then
      some (RE.altList (groups.terms.map (fun term => .lit term.data)))
    else none),
    (if groups.terms_wc.length > 0 then
      some (.cat (RE.altList (groups.terms_wc.filterMap patternRE)) wildcardRE)
    else none),
    (if groups.terms_internal_wc.length > 0 then
      some (RE.altList (groups.terms_internal_wc.filterMap patternRE))
    else none),
    (if groups.wc_terms.length > 0 then
      some (.cat wildcardRE (RE.altList (groups.wc_terms.filterMap patternRE)))
    else none),
    (if groups.wc_terms_wc.length > 0 then
      some (.cat wildcardRE
        (.cat (RE.altList (groups.wc_terms_wc.filterMap patternRE)) wildcardRE))
    else none)]
  regex_exprs.filterMap id

theorem automatonRE_eq_altList (ps : List MatchPredicate) :
    automaton_matcher.automatonRE ps = RE.altList (automatonBranches ps) := rfl

theorem exists_some_ite {c : Prop} [Decidable c] {x : RE} {P : RE → Prop} :
    (∃ r, (if c then some x else none) = some r ∧ P r) ↔ c ∧ P x := by
  split_ifs with h
  · constructor
    · rintro ⟨r, hr, hp⟩
      cases hr
      exact ⟨h, hp⟩
    · rintro ⟨_, hp⟩
      exact ⟨x, rfl, hp⟩
  · constructor
    · rintro ⟨r, hr, _⟩
      cases hr
    · rintro ⟨hc, _⟩
      exact absurd hc h

theorem ite_some_eq_none {c : Prop} [Decidable c] {x : RE} :
    ((if c then some x else none) = none) ↔ ¬c := by
  split_ifs with h <;> simp [h]

theorem exists_mem_filterMap_id5 {i1 i2 i3 i4 i5 : Option RE} {P : RE → Prop} :
    (∃ r ∈ List.filterMap id [i1, i2, i3, i4, i5], P r) ↔
      ((∃ r, i1 = some r ∧ P r) ∨ (∃ r, i2 = some r ∧ P r) ∨
        (∃ r, i3 = some r ∧ P r) ∨ (∃ r, i4 = some r ∧ P r) ∨
        (∃ r, i5 = some r ∧ P r)) := by
  constructor
  · rintro ⟨r, hr, hp⟩
    rcases List.mem_filterMap.mp hr with ⟨o, ho, hor⟩
    simp only [id] at hor
    simp only [List.mem_cons, List.not_mem_nil, or_false] at ho
    rcases ho with rfl | rfl | rfl | rfl | rfl
    · exact Or.inl ⟨r, hor, hp⟩
    · exact Or.inr (Or.inl ⟨r, hor, hp⟩)
    · exact Or.inr (Or.inr (Or.inl ⟨r, hor, hp⟩))
    · exact Or.inr (Or.inr (Or.inr (Or.inl ⟨r, hor, hp⟩)))
    · exact Or.inr (Or.inr (Or.inr (Or.inr ⟨r, hor, hp⟩)))
  · rintro (⟨r, hr, hp⟩ | ⟨r, hr, hp⟩ | ⟨r, hr, hp⟩ | ⟨r, hr, hp⟩ | ⟨r, hr, hp⟩)
    · exact ⟨r, List.mem_filterMap.mpr ⟨i1, by simp, hr⟩, hp⟩
    · exact ⟨r, List.mem_filterMap.mpr ⟨i2, by simp, hr⟩, hp⟩
    · exact ⟨r, List.mem_filterMap.mpr ⟨i3, by simp, hr⟩, hp⟩
    · exact ⟨r, List.mem_filterMap.mpr ⟨i4, by simp, hr⟩, hp⟩
    · exact ⟨r, List.mem_filterMap.mpr ⟨i5, by simp, hr⟩, hp⟩

theorem filterMap_id5_eq_nil {i1 i2 i3 i4 i5 : Option RE} :
    (List.filterMap id [i1, i2, i3, i4, i5] = []) ↔
      (i1 = none ∧ i2 = none ∧ i3 = none ∧ i4 = none ∧ i5 = none) := by
  rw [List.filterMap_eq_nil_iff]
  simp [List.forall_mem_cons]

theorem lang_wildcard_of_subset {t v : List Char} (ht : ∀ c ∈ t, c ≤ wildcardHi)
    (hsub : ∀ c ∈ v, c ∈ t) : RE.Lang wildcardRE v :=
  RE.lang_star_cls.mpr (fun c hc => ⟨wildcardLo_le c, ht c (hsub c hc)⟩)

/-- For a token whose characters all lie in the wildcard class, trailing
"arbitrary characters" padding and the trailing wildcard expression denote
the same thing. -/
theorem lang_cat_wc_right {X : RE} {t : List Char} (ht : ∀ c ∈ t, c ≤ wildcardHi) :
    RE.Lang (.cat X (.star .any)) t ↔ RE.Lang (.cat X wildcardRE) t := by
  rw [RE.lang_cat_iff, RE.lang_cat_iff]
  constructor
  · rintro ⟨u, v, rfl, hu, _⟩
    exact ⟨u, v, rfl, hu,
      lang_wildcard_of_subset ht (fun c hc => List.mem_append_right u hc)⟩
  · rintro ⟨u, v, rfl, hu, _⟩
    exact ⟨u, v, rfl, hu, RE.lang_anyStar v⟩

theorem lang_cat_wc_left {X : RE} {t : List Char} (ht : ∀ c ∈ t, c ≤ wildcardHi) :
    RE.Lang (.cat (.star .any) X) t ↔ RE.Lang (.cat wildcardRE X) t := by
  rw [RE.lang_cat_iff, RE.lang_cat_iff]
  constructor
  · rintro ⟨u, v, rfl, _, hv⟩
    exact ⟨u, v, rfl,
      lang_wildcard_of_subset ht (fun c hc => List.mem_append_left v hc), hv⟩
  · rintro ⟨u, v, rfl, _, hv⟩
    exact ⟨u, v, rfl, RE.lang_anyStar u, hv⟩

theorem lang_cat_wc_both {X : RE} {t : List Char} (ht : ∀ c ∈ t, c ≤ wildcardHi) :
    RE.Lang (.cat (.star .any) (.cat X (.star .any))) t
      ↔ RE.Lang (.cat wildcardRE (.cat X wildcardRE)) t := by
  rw [RE.lang_cat_iff, RE.lang_cat_iff]
  constructor
  · rintro ⟨u, v, rfl, _, hv⟩
    have htv : ∀ c ∈ v, c ≤ wildcardHi :=
      fun c hc => ht c (List.mem_append_right u hc)
    exact ⟨u, v, rfl,
      lang_wildcard_of_subset ht (fun c hc => List.mem_append_left v hc),
      (lang_cat_wc_right htv).mp hv⟩
  · rintro ⟨u, v, rfl, _, hv⟩
    have htv : ∀ c ∈ v, c ≤ wildcardHi :=
      fun c hc => ht c (List.mem_append_right u hc)
    exact ⟨u, v, rfl, RE.lang_anyStar u, (lang_cat_wc_right htv).mpr hv⟩

theorem automatonBranches_ne_nil {ps : List MatchPredicate}
    (hne : regex_matcher.branchREs ps ≠ []) : automatonBranches ps ≠ [] := by
  intro h
  apply hne
  simp only [automatonBranches] at h
  rw [filterMap_id5_eq_nil] at h
  simp only [ite_some_eq_none] at h
  simp only [regex_matcher.branchREs]
  rw [filterMap_id5_eq_nil]
  simp only [ite_some_eq_none]
  exact ⟨h.1, h.2.2.1, h.2.1, h.2.2.2.1, h.2.2.2.2⟩

theorem regex_matches_iff_branches (ps : List MatchPredicate) (t : String)
    (hne : regex_matcher.branchREs ps ≠ []) :
    (regex_matcher.regex_matches ps t = true) ↔
      ∃ r ∈ regex_matcher.branchREs ps, RE.Lang r t.data := by
  unfold regex_matcher.regex_matches
  cases hb : regex_matcher.branchREs ps with
  | nil => exact absurd hb hne
  | cons r0 rs =>
      simp only []
      rw [RE.accepts_iff_lang, RE.lang_altList (List.cons_ne_nil r0 rs)]

theorem automaton_matches_iff_branches (ps : List MatchPredicate) (t : String)
    (hne : automatonBranches ps ≠ []) :
    (automaton_matcher.automaton_matches ps t = true) ↔
      ∃ r ∈ automatonBranches ps, RE.Lang r t.data := by
  rw [automaton_matcher.automaton_matches_iff_accepts, automatonRE_eq_altList,
    RE.accepts_iff_lang, RE.lang_altList hne]

theorem branches_equiv (ps : List MatchPredicate) (t : String)
    (ht : ∀ c ∈ t.data, c ≤ wildcardHi) :
    (∃ r ∈ regex_matcher.branchREs ps, RE.Lang r t.data) ↔
      (∃ r ∈ automatonBranches ps, RE.Lang r t.data) := by
  unfold regex_matcher.branchREs automatonBranches
  simp only [exists_mem_filterMap_id5, exists_some_ite]
  rw [lang_cat_wc_both ht, lang_cat_wc_right ht, lang_cat_wc_left ht]
  tauto

/-- For any predicate set whose synthesized pattern is non-empty and any
token all of whose characters lie in the wildcard class, the regex and
automaton backends agree on whether the token matches. -/
theorem regex_automaton_matches_agree (ps : List MatchPredicate) (t : String)
    (hne : regex_matcher.branchREs ps ≠ [])
    (ht : ∀ c ∈ t.data, c ≤ wildcardHi) :
    regex_matcher.regex_matches ps t = automaton_matcher.automaton_matches ps t := by
  have hne' := automatonBranches_ne_nil hne
  have hiff : regex_matcher.regex_matches ps t = true
      ↔ automaton_matcher.automaton_matches ps t = true :=
    (regex_matches_iff_branches ps t hne).trans
      ((branches_equiv ps t ht).trans (automaton_matches_iff_branches ps t hne').symm)
  cases hx : regex_matcher.regex_matches ps t with
  | false =>
      cases hy : automaton_matcher.automaton_matches ps t with
      | false => rfl
      | true => exact absurd (hiff.mpr hy) (by rw [hx]; exact Bool.false_ne_true)
  | true =>
      cases hy : automaton_matcher.automaton_matches ps t with
      | false => exact absurd (hiff.mp hx) (by rw [hy]; exact Bool.false_ne_true)
      | true => rfl

/-- For a non-empty predicate set consisting only of Term predicates, with
the term-reciprocal map supported on those terms, the hash, regex and
automaton matchers all return exactly the map's entry for the token (so
they agree on whether it matches and on the weight). -/
theorem C1_backend_agreement_terms_only (ps : List MatchPredicate)
    (m : String → Option DocFreqReciprocal) (g : String → Nat) (t : String)
    (hne : ps ≠ []) (hterm : ∀ p ∈ ps, isTermPred p = true)
    (hmap : ∀ s, isTermOf ps s = false → m s = none) :
    ((HashMatcher.new m).lookup_doc_freq_reciprocal t g).1 = m t ∧
    ((RegexMatcher.new ps m).lookup_doc_freq_reciprocal t g).1 = m t ∧
    ((AutomatonMatcher.new ps m).lookup_doc_freq_reciprocal t g).1 = m t := by
  have htne : termTexts ps ≠ [] := termTexts_ne_nil hne hterm
  have hterms : (GroupedPatterns.group ps).terms = termTexts ps := by
    rw [group_terms_only hterm]
  refine ⟨rfl, ?_, ?_⟩
  · unfold RegexMatcher.lookup_doc_freq_reciprocal
    rw [show (RegexMatcher.new ps m).predicate_set = ps from rfl]
    by_cases hmem : t ∈ termTexts ps
    · have hm1 : regex_matcher.regex_matches ps t = true := by
        rw [regex_matches_terms_only hterm htne]
        exact decide_eq_true hmem
      rw [if_pos hm1]
      cases hfi : firstIdxEq (termTexts ps) t with
      | none => exact absurd hmem (by simpa using firstIdxEq_eq_none_iff.mp hfi)
      | some i =>
          have hcap : regex_matcher.captured_term_index ps t = some i := by
            unfold regex_matcher.captured_term_index
            rw [if_pos hm1, hterms, hfi]
          obtain ⟨hilen, hielem⟩ := firstIdxEq_spec hfi
          have hic : i < (RegexMatcher.new ps m).term_count := hilen
          simp only [hcap, if_pos hic]
          show (((termTexts ps).map m)[i]?).join = m t
          rw [List.getElem?_map, hielem]
          rfl
    · have hm0 : regex_matcher.regex_matches ps t = false := by
        rw [regex_matches_terms_only hterm htne]
        exact decide_eq_false hmem
      rw [if_neg (by rw [hm0]; exact Bool.false_ne_true)]
      exact (hmap t (isTermOf_eq_false_of_not_mem hmem)).symm
  · by_cases hmem : t ∈ termTexts ps
    · have hacc : RE.accepts (automaton_matcher.automatonRE ps) t.data = true := by
        rw [automatonRE_terms_only hterm htne, RE.accepts_iff_lang]
        exact (lang_altList_lits htne t).mpr hmem
      unfold AutomatonMatcher.lookup_doc_freq_reciprocal
      rw [show (AutomatonMatcher.new ps m).predicate_set = ps from rfl]
      have hf := automaton_matcher.dfaFind_of_accepts hacc
      simp only [hf]
      rw [if_neg (lt_irrefl _)]
      have hcache : (AutomatonMatcher.new ps m).doc_freq_cache t = some (m t) := by
        simp [AutomatonMatcher.new, (isTermOf_iff_mem_termTexts ps t).mpr hmem]
      simp only [hcache]
    · have hacc : RE.accepts (automaton_matcher.automatonRE ps) t.data = false := by
        cases hh : RE.accepts (automaton_matcher.automatonRE ps) t.data
        · rfl
        · rw [automatonRE_terms_only hterm htne, RE.accepts_iff_lang] at hh
          exact absurd ((lang_altList_lits htne t).mp hh) hmem
      have hnm : automaton_matcher.automaton_matches
          (AutomatonMatcher.new ps m).predicate_set t = false := by
        show automaton_matcher.automaton_matches ps t = false
        rw [automaton_matcher.automaton_matches_iff_accepts]
        exact hacc
      rw [automaton_lookup_no_match (AutomatonMatcher.new ps m) t g hnm]
      exact (hmap t (isTermOf_eq_false_of_not_mem hmem)).symm

/-- The predicate set with one `a*` wildcard pattern. -/
def psWildcardOnly : List MatchPredicate := [.Pattern ⟨[.Literal "a", .Wildcard]⟩]

/-- C1 counterexample: built from the predicate set `{Pattern "a*"}` (with
its term-reciprocal map, which is empty) and a frequency source reporting
1 for every term, the hash backend reports no match for token "ab" while
the automaton backend matches it with weight 1/2 — the backends do not
agree for predicate sets containing wildcard patterns. -/
theorem C1_counterexample :
    ((HashMatcher.new (term_doc_freq_reciprocals_from_predicate_set psWildcardOnly)
        ).lookup_doc_freq_reciprocal "ab" (fun _ => 1)).1 = none ∧
    ((AutomatonMatcher.new psWildcardOnly
        (term_doc_freq_reciprocals_from_predicate_set psWildcardOnly)
        ).lookup_doc_freq_reciprocal "ab" (fun _ => 1)).1 = some ⟨1/2⟩ := by
  refine ⟨rfl, ?_⟩
  show DocFreqReciprocal.from_doc_freq 1 = some ⟨1/2⟩
  exact from_doc_freq_one

/-- The Terms-only predicate set for the C1 witness. -/
def psFooTerm : List MatchPredicate := [.Term "foo"]

/-- C1 witness: the amended agreement applied to `{Term "foo"}` with its
term-reciprocal map and token "foo". -/
theorem C1_backend_agreement_terms_only_witness :
    ((HashMatcher.new (term_doc_freq_reciprocals_from_predicate_set psFooTerm)
        ).lookup_doc_freq_reciprocal "foo" (fun _ => 7)).1
      = term_doc_freq_reciprocals_from_predicate_set psFooTerm "foo" ∧
    ((RegexMatcher.new psFooTerm
        (term_doc_freq_reciprocals_from_predicate_set psFooTerm)
        ).lookup_doc_freq_reciprocal "foo" (fun _ => 7)).1
      = term_doc_freq_reciprocals_from_predicate_set psFooTerm "foo" ∧
    ((AutomatonMatcher.new psFooTerm
        (term_doc_freq_reciprocals_from_predicate_set psFooTerm)
        ).lookup_doc_freq_reciprocal "foo" (fun _ => 7)).1
      = term_doc_freq_reciprocals_from_predicate_set psFooTerm "foo" :=
  C1_backend_agreement_terms_only psFooTerm
    (term_doc_freq_reciprocals_from_predicate_set psFooTerm) (fun _ => 7) "foo"
    (by decide) (by decide)
    (fun s hs => by simp [term_doc_freq_reciprocals_from_predicate_set, hs])

theorem firstIdxEq_append_mem : ∀ {l1 : List String} (l2 : List String)
    {t : String}, t ∈ l1 →
    ∃ i, firstIdxEq (l1 ++ l2) t = some i ∧ i < l1.length ∧ l1[i]? = some t := by
  intro l1
  induction l1 with
  | nil => intro l2 t h; cases h
  | cons a l ih =>
      intro l2 t h
      by_cases ha : a = t
      · refine ⟨0, ?_, Nat.succ_pos _, ?_⟩
        · rw [List.cons_append, firstIdxEq, if_pos ha]
        · simp [ha]
      · have h' : t ∈ l := by
          rcases List.mem_cons.mp h with h | h
          · exact absurd h.symm ha
          · exact h
        obtain ⟨i, hfi, hlt, he⟩ := ih l2 h'
        refine ⟨i + 1, ?_, Nat.succ_lt_succ hlt, ?_⟩
        · rw [List.cons_append, firstIdxEq, if_neg ha, hfi]; rfl
        · simpa using he

theorem firstIdxEq_append_not_mem : ∀ {l1 l2 : List String} {t : String},
    t ∉ l1 →
    firstIdxEq (l1 ++ l2) t = (firstIdxEq l2 t).map (· + l1.length) := by
  intro l1
  induction l1 with
  | nil =>
      intro l2 t _
      show firstIdxEq l2 t = (firstIdxEq l2 t).map (· + 0)
      cases firstIdxEq l2 t <;> simp
  | cons a l ih =>
      intro l2 t h
      have ha : ¬(a = t) := fun hh => h (by rw [← hh]; exact List.mem_cons_self a l)
      rw [List.cons_append, firstIdxEq, if_neg ha,
        ih (fun hm => h (List.mem_cons_of_mem a hm))]
      cases firstIdxEq l2 t <;> simp [Nat.add_assoc]

/-- On a matching token, the automaton lookup returns the pre-populated
cache entry for a Term and otherwise the reciprocal of the external doc
frequency. -/
theorem automaton_lookup_match (ps : List MatchPredicate)
    (m : String → Option DocFreqReciprocal) (g : String → Nat) (t : String)
    (h : automaton_matcher.automaton_matches ps t = true) :
    ((AutomatonMatcher.new ps m).lookup_doc_freq_reciprocal t g).1
      = if isTermOf ps t then m t else DocFreqReciprocal.from_doc_freq (g t) := by
  unfold automaton_matcher.automaton_matches at h
  unfold AutomatonMatcher.lookup_doc_freq_reciprocal
  rw [show (AutomatonMatcher.new ps m).predicate_set = ps from rfl]
  cases hf : automaton_matcher.dfaFind (automaton_matcher.automatonRE ps) t.data with
  | none =>
      rw [hf] at h
      exact Bool.noConfusion h
  | some len =>
      rw [hf] at h
      simp only [] at h ⊢
      by_cases hl : len < t.data.length
      · rw [if_pos hl] at h
        exact Bool.noConfusion h
      · rw [if_neg hl]
        by_cases hterm : isTermOf ps t = true
        · have hcache : (AutomatonMatcher.new ps m).doc_freq_cache t = some (m t) := by
            simp [AutomatonMatcher.new, hterm]
          simp only [hcache, if_pos hterm]
        · have hcache : (AutomatonMatcher.new ps m).doc_freq_cache t = none := by
            simp [AutomatonMatcher.new, hterm]
          simp only [hcache, if_neg hterm]

/-- On a matching token, the regex lookup of a matcher built from a sorted
predicate set returns the map entry for a Term and otherwise the
reciprocal of the external doc frequency. -/
theorem regex_lookup_match_sorted (ps : List MatchPredicate)
    (m : String → Option DocFreqReciprocal) (g : String → Nat) (t : String)
    (hsorted : PredicateSetSorted ps)
    (h : regex_matcher.regex_matches ps t = true) :
    ((RegexMatcher.new ps m).lookup_doc_freq_reciprocal t g).1
      = if isTermOf ps t then m t else DocFreqReciprocal.from_doc_freq (g t) := by
  have hterms : (GroupedPatterns.group ps).terms
      = termTexts ps ++ len1LiteralTexts ps := by
    rw [group_eq_groupSpec]
    exact sorted_terms_split hsorted
  unfold RegexMatcher.lookup_doc_freq_reciprocal
  rw [show (RegexMatcher.new ps m).predicate_set = ps from rfl, if_pos h]
  by_cases hmem : t ∈ termTexts ps
  · obtain ⟨i, hfi, hlt, helem⟩ := firstIdxEq_append_mem (len1LiteralTexts ps) hmem
    have hcap : regex_matcher.captured_term_index ps t = some i := by
      unfold regex_matcher.captured_term_index
      rw [if_pos h, hterms, hfi]
    have hic : i < (RegexMatcher.new ps m).term_count := hlt
    simp only [hcap, if_pos hic]
    rw [if_pos ((isTermOf_iff_mem_termTexts ps t).mpr hmem)]
    show (((termTexts ps).map m)[i]?).join = m t
    rw [List.getElem?_map, helem]
    rfl
  · have hfi2 : firstIdxEq (termTexts ps ++ len1LiteralTexts ps) t
        = (firstIdxEq (len1LiteralTexts ps) t).map (· + (termTexts ps).length) :=
      firstIdxEq_append_not_mem hmem
    rw [if_neg (by rw [isTermOf_eq_false_of_not_mem hmem]; exact Bool.false_ne_true)]
    cases hl1 : firstIdxEq (len1LiteralTexts ps) t with
    | none =>
        have hcap : regex_matcher.captured_term_index ps t = none := by
          unfold regex_matcher.captured_term_index
          rw [if_pos h, hterms, hfi2, hl1]
          rfl
        simp only [hcap]
        rfl
    | some j =>
        have hcap : regex_matcher.captured_term_index ps t
            = some (j + (termTexts ps).length) := by
          unfold regex_matcher.captured_term_index
          rw [if_pos h, hterms, hfi2, hl1]
          rfl
        have hnlt : ¬(j + (termTexts ps).length < (RegexMatcher.new ps m).term_count) := by
          show ¬(j + (termTexts ps).length < (termTexts ps).length)
          omega
        simp only [hcap, if_neg hnlt]
        rfl

/-- Regex and automaton lookups agree on the returned weight for a sorted
predicate set with a non-empty synthesized pattern and an in-range token. -/
theorem regex_automaton_lookup_agree (ps : List MatchPredicate)
    (m : String → Option DocFreqReciprocal) (g : String → Nat) (t : String)
    (hsorted : PredicateSetSorted ps)
    (hne : regex_matcher.branchREs ps ≠ [])
    (ht : ∀ c ∈ t.data, c ≤ wildcardHi) :
    ((RegexMatcher.new ps m).lookup_doc_freq_reciprocal t g).1
      = ((AutomatonMatcher.new ps m).lookup_doc_freq_reciprocal t g).1 := by
  have hagree := regex_automaton_matches_agree ps t hne ht
  cases hx : regex_matcher.regex_matches ps t with
  | true =>
      rw [regex_lookup_match_sorted ps m g t hsorted hx,
        automaton_lookup_match ps m g t (by rw [← hagree]; exact hx)]
  | false =>
      have hy : automaton_matcher.automaton_matches ps t = false := by
        rw [← hagree]; exact hx
      have h1 : ((RegexMatcher.new ps m).lookup_doc_freq_reciprocal t g).1 = none := by
        unfold RegexMatcher.lookup_doc_freq_reciprocal
        rw [show (RegexMatcher.new ps m).predicate_set = ps from rfl,
          if_neg (by rw [hx]; exact Bool.false_ne_true)]
      rw [h1, automaton_lookup_no_match (AutomatonMatcher.new ps m) t g
        (show automaton_matcher.automaton_matches ps t = false from hy)]

/-- C1 (amended): the three matcher backends do not agree in general (see
the counterexample), but (a) for a non-empty predicate set consisting only
of Term predicates, with a term-reciprocal map supported on those terms,
the hash, regex and automaton lookups all return exactly the map's entry
for the token; and (b) for any sorted predicate set whose synthesized
pattern is non-empty, the regex and automaton backends agree on the match
decision and on the returned weight for every token whose characters lie
in the wildcard code-point range U+0000..U+024F. -/
theorem C1_backend_agreement (ps : List MatchPredicate)
    (m : String → Option DocFreqReciprocal) (g : String → Nat) (t : String) :
    (ps ≠ [] → (∀ p ∈ ps, isTermPred p = true) →
      (∀ s, isTermOf ps s = false → m s = none) →
      ((HashMatcher.new m).lookup_doc_freq_reciprocal t g).1 = m t ∧
      ((RegexMatcher.new ps m).lookup_doc_freq_reciprocal t g).1 = m t ∧
      ((AutomatonMatcher.new ps m).lookup_doc_freq_reciprocal t g).1 = m t) ∧
    (PredicateSetSorted ps → regex_matcher.branchREs ps ≠ [] →
      (∀ c ∈ t.data, c ≤ wildcardHi) →
      regex_matcher.regex_matches ps t = automaton_matcher.automaton_matches ps t ∧
      ((RegexMatcher.new ps m).lookup_doc_freq_reciprocal t g).1
        = ((AutomatonMatcher.new ps m).lookup_doc_freq_reciprocal t g).1) :=
  ⟨fun hne hterm hmap => C1_backend_agreement_terms_only ps m g t hne hterm hmap,
   fun hs hne ht => ⟨regex_automaton_matches_agree ps t hne ht,
     regex_automaton_lookup_agree ps m g t hs hne ht⟩⟩

/-- The term-reciprocal map built from `{Term "foo"}`. -/
def mFoo : String → Option DocFreqReciprocal :=
  term_doc_freq_reciprocals_from_predicate_set psFooTerm

/-- The term-reciprocal map built from `{Pattern "a*"}` (empty support). -/
def mW : String → Option DocFreqReciprocal :=
  term_doc_freq_reciprocals_from_predicate_set psWildcardOnly

/-- C1 witness: part (a) applied to `{Term "foo"}` with its term-reciprocal
map and token "foo"; part (b) applied to the sorted set `{Pattern "a*"}`
and the in-range token "ab". -/
theorem C1_backend_agreement_witness :
    (((HashMatcher.new mFoo).lookup_doc_freq_reciprocal "foo" (fun _ => 7)).1
        = mFoo "foo" ∧
      ((RegexMatcher.new psFooTerm mFoo).lookup_doc_freq_reciprocal "foo"
          (fun _ => 7)).1 = mFoo "foo" ∧
      ((AutomatonMatcher.new psFooTerm mFoo).lookup_doc_freq_reciprocal "foo"
          (fun _ => 7)).1 = mFoo "foo") ∧
    (regex_matcher.regex_matches psWildcardOnly "ab"
        = automaton_matcher.automaton_matches psWildcardOnly "ab" ∧
      ((RegexMatcher.new psWildcardOnly mW).lookup_doc_freq_reciprocal "ab"
          (fun _ => 1)).1
        = ((AutomatonMatcher.new psWildcardOnly mW).lookup_doc_freq_reciprocal "ab"
            (fun _ => 1)).1) :=
  ⟨(C1_backend_agreement psFooTerm mFoo (fun _ => 7) "foo").1 (by decide) (by decide)
      (fun s hs => by simp [mFoo, term_doc_freq_reciprocals_from_predicate_set, hs]),
   (C1_backend_agreement psWildcardOnly mW (fun _ => 1) "ab").2 (by decide) (by decide)
      (by decide)⟩

/-- C6: token lookup has no error path — on a fresh matcher every lookup
deterministically returns the empty result or a weight, and a token whose
lookup reaches the frequency source and finds document frequency zero
yields the same empty result (`none`) as a token that matches nothing, for
both compiled backends. -/
theorem C6_lookup_total_and_zero_freq_empty (ps : List MatchPredicate)
    (m : String → Option DocFreqReciprocal) (g : String → Nat) (t : String) :
    (automaton_matcher.automaton_matches ps t = false →
      ((AutomatonMatcher.new ps m).lookup_doc_freq_reciprocal t g).1 = none) ∧
    (isTermOf ps t = false → g t = 0 →
      ((AutomatonMatcher.new ps m).lookup_doc_freq_reciprocal t g).1 = none) ∧
    (regex_matcher.regex_matches ps t = false →
      ((RegexMatcher.new ps m).lookup_doc_freq_reciprocal t g).1 = none) ∧
    (t ∉ (GroupedPatterns.group ps).terms → g t = 0 →
      ((RegexMatcher.new ps m).lookup_doc_freq_reciprocal t g).1 = none) := by
  refine ⟨fun h => automaton_lookup_no_match _ _ _ h, ?_, ?_, ?_⟩
  · intro hterm hg
    unfold AutomatonMatcher.lookup_doc_freq_reciprocal
    cases hf : automaton_matcher.dfaFind (automaton_matcher.automatonRE
        (AutomatonMatcher.new ps m).predicate_set) t.data with
    | none => rfl
    | some len =>
        simp only []
        by_cases hl : len < t.data.length
        · rw [if_pos hl]
        · rw [if_neg hl]
          have hc : (AutomatonMatcher.new ps m).doc_freq_cache t = none := by
            simp [AutomatonMatcher.new, hterm]
          simp only [hc]
          show DocFreqReciprocal.from_doc_freq (g t) = none
          rw [hg]
          exact from_doc_freq_zero
  · intro h
    unfold RegexMatcher.lookup_doc_freq_reciprocal
    rw [show (RegexMatcher.new ps m).predicate_set = ps from rfl,
      if_neg (by rw [h]; exact Bool.false_ne_true)]
  · intro hmem hg
    unfold RegexMatcher.lookup_doc_freq_reciprocal
    rw [show (RegexMatcher.new ps m).predicate_set = ps from rfl]
    by_cases hm1 : regex_matcher.regex_matches ps t = true
    · rw [if_pos hm1]
      have hcap : regex_matcher.captured_term_index ps t = none := by
        unfold regex_matcher.captured_term_index
        rw [if_pos hm1]
        exact firstIdxEq_eq_none_iff.mpr hmem
      simp only [hcap]
      show DocFreqReciprocal.from_doc_freq (g t) = none
      rw [hg]
      exact from_doc_freq_zero
    · rw [if_neg hm1]

/-- C6 witness: against `{Pattern "a*"}` with a zero-reporting frequency
source, the non-matching token "xy" and the matching-but-zero-frequency
token "ab" both yield the empty result, in both compiled backends. -/
theorem C6_lookup_total_and_zero_freq_empty_witness :
    ((AutomatonMatcher.new psWildcardOnly
        (term_doc_freq_reciprocals_from_predicate_set psWildcardOnly)
      ).lookup_doc_freq_reciprocal "xy" (fun _ => 0)).1 = none ∧
    ((AutomatonMatcher.new psWildcardOnly
        (term_doc_freq_reciprocals_from_predicate_set psWildcardOnly)
      ).lookup_doc_freq_reciprocal "ab" (fun _ => 0)).1 = none ∧
    ((RegexMatcher.new psWildcardOnly
        (term_doc_freq_reciprocals_from_predicate_set psWildcardOnly)
      ).lookup_doc_freq_reciprocal "xy" (fun _ => 0)).1 = none ∧
    ((RegexMatcher.new psWildcardOnly
        (term_doc_freq_reciprocals_from_predicate_set psWildcardOnly)
      ).lookup_doc_freq_reciprocal "ab" (fun _ => 0)).1 = none :=
  ⟨(C6_lookup_total_and_zero_freq_empty psWildcardOnly _ (fun _ => 0) "xy").1
      (by decide),
    (C6_lookup_total_and_zero_freq_empty psWildcardOnly _ (fun _ => 0) "ab").2.1
      (by decide) rfl,
    (C6_lookup_total_and_zero_freq_empty psWildcardOnly _ (fun _ => 0) "xy").2.2.1
      (by decide),
    (C6_lookup_total_and_zero_freq_empty psWildcardOnly _ (fun _ => 0) "ab").2.2.2
      (by decide) rfl⟩

theorem hash_lookup_idem (hm : HashMatcher) (t : String) (g : String → Nat) :
    ((hm.lookup_doc_freq_reciprocal t g).2).lookup_doc_freq_reciprocal t g
      = hm.lookup_doc_freq_reciprocal t g := rfl

theorem regex_lookup_idem (rm : RegexMatcher) (t : String) (g : String → Nat) :
    ((rm.lookup_doc_freq_reciprocal t g).2).lookup_doc_freq_reciprocal t g
      = rm.lookup_doc_freq_reciprocal t g := by
  by_cases hmatch : regex_matcher.regex_matches rm.predicate_set t
  · cases hcap : regex_matcher.captured_term_index rm.predicate_set t with
    | some i =>
        by_cases hi : i < rm.term_count
        · have hL : rm.lookup_doc_freq_reciprocal t g
              = ((rm.term_doc_freq_reciprocals[i]?).join, rm) := by
            unfold RegexMatcher.lookup_doc_freq_reciprocal
            simp only [if_pos hmatch, hcap, if_pos hi]
          rw [hL]
          exact hL
        · cases hc : rm.pattern_doc_freq_cache t with
          | some v =>
              have hL : rm.lookup_doc_freq_reciprocal t g = (v, rm) := by
                unfold RegexMatcher.lookup_doc_freq_reciprocal
                    RegexMatcher.patternLookup
                simp only [if_pos hmatch, hcap, if_neg hi, hc]
              rw [hL]
              exact hL
          | none =>
              have hL : rm.lookup_doc_freq_reciprocal t g
                  = (DocFreqReciprocal.from_doc_freq (g t),
                     { rm with pattern_doc_freq_cache := (cacheInsert
                        rm.pattern_doc_freq_cache t
                        (DocFreqReciprocal.from_doc_freq (g t))) }) := by
                unfold RegexMatcher.lookup_doc_freq_reciprocal
                    RegexMatcher.patternLookup
                simp only [if_pos hmatch, hcap, if_neg hi, hc]
              rw [hL]
              unfold RegexMatcher.lookup_doc_freq_reciprocal
                  RegexMatcher.patternLookup
              simp only [if_pos hmatch, hcap, if_neg hi, cacheInsert, eq_self_iff_true, if_true]
    | none =>
        cases hc : rm.pattern_doc_freq_cache t with
        | some v =>
            have hL : rm.lookup_doc_freq_reciprocal t g = (v, rm) := by
              unfold RegexMatcher.lookup_doc_freq_reciprocal
                  RegexMatcher.patternLookup
              simp only [if_pos hmatch, hcap, hc]
            rw [hL]
            exact hL
        | none =>
            have hL : rm.lookup_doc_freq_reciprocal t g
                = (DocFreqReciprocal.from_doc_freq (g t),
                   { rm with pattern_doc_freq_cache := (cacheInsert
                      rm.pattern_doc_freq_cache t
                      (DocFreqReciprocal.from_doc_freq (g t))) }) := by
              unfold RegexMatcher.lookup_doc_freq_reciprocal
                  RegexMatcher.patternLookup
              simp only [if_pos hmatch, hcap, hc]
            rw [hL]
            unfold RegexMatcher.lookup_doc_freq_reciprocal
                RegexMatcher.patternLookup
            simp only [if_pos hmatch, hcap, cacheInsert, eq_self_iff_true, if_true]
  · have hL : rm.lookup_doc_freq_reciprocal t g = (none, rm) := by
      unfold RegexMatcher.lookup_doc_freq_reciprocal
      rw [if_neg hmatch]
    rw [hL]
    exact hL

theorem automaton_lookup_idem (am : AutomatonMatcher) (t : String) (g : String → Nat) :
    ((am.lookup_doc_freq_reciprocal t g).2).lookup_doc_freq_reciprocal t g
      = am.lookup_doc_freq_reciprocal t g := by
  cases hf : automaton_matcher.dfaFind
      (automaton_matcher.automatonRE am.predicate_set) t.data with
  | none =>
      have hL : am.lookup_doc_freq_reciprocal t g = (none, am) := by
        unfold AutomatonMatcher.lookup_doc_freq_reciprocal
        simp only [hf]
      rw [hL]
      exact hL
  | some len =>
      by_cases hl : len < t.data.length
      · have hL : am.lookup_doc_freq_reciprocal t g = (none, am) := by
          unfold AutomatonMatcher.lookup_doc_freq_reciprocal
          simp only [hf, if_pos hl]
        rw [hL]
        exact hL
      · cases hc : am.doc_freq_cache t with
        | some v =>
            have hL : am.lookup_doc_freq_reciprocal t g = (v, am) := by
              unfold AutomatonMatcher.lookup_doc_freq_reciprocal
              simp only [hf, if_neg hl, hc]
            rw [hL]
            exact hL
        | none =>
            have hL : am.lookup_doc_freq_reciprocal t g
                = (DocFreqReciprocal.from_doc_freq (g t),
                   { am with doc_freq_cache := (cacheInsert
                      am.doc_freq_cache t
                      (DocFreqReciprocal.from_doc_freq (g t))) }) := by
              unfold AutomatonMatcher.lookup_doc_freq_reciprocal
              simp only [hf, if_neg hl, hc]
            rw [hL]
            unfold AutomatonMatcher.lookup_doc_freq_reciprocal
            simp only [hf, if_neg hl, cacheInsert, eq_self_iff_true, if_true]

/-- C8: re-evaluating the same token against the same matcher instance (in
whatever cache state) returns the identical result and leaves the state —
in particular the value cached for the token — unchanged, for each of the
three backends. -/
theorem C8_lookup_idempotent (hm : HashMatcher) (rm : RegexMatcher)
    (am : AutomatonMatcher) (t : String) (g : String → Nat) :
    ((hm.lookup_doc_freq_reciprocal t g).2).lookup_doc_freq_reciprocal t g
      = hm.lookup_doc_freq_reciprocal t g ∧
    ((rm.lookup_doc_freq_reciprocal t g).2).lookup_doc_freq_reciprocal t g
      = rm.lookup_doc_freq_reciprocal t g ∧
    ((am.lookup_doc_freq_reciprocal t g).2).lookup_doc_freq_reciprocal t g
      = am.lookup_doc_freq_reciprocal t g :=
  ⟨hash_lookup_idem hm t g, regex_lookup_idem rm t g, automaton_lookup_idem am t g⟩

/-- C10 witness: a concrete instantiation — token "foo" is a Term of the
set, and the two frequency sources disagree wildly on it. -/
theorem C10_automaton_term_lookup_source_independent_witness :
    isTermOf [MatchPredicate.Term "foo"] "foo" = true ∧
    ((AutomatonMatcher.new [MatchPredicate.Term "foo"]
        (term_doc_freq_reciprocals_from_predicate_set [MatchPredicate.Term "foo"])
      ).lookup_doc_freq_reciprocal "foo" (fun _ => 0)).1
      = ((AutomatonMatcher.new [MatchPredicate.Term "foo"]
        (term_doc_freq_reciprocals_from_predicate_set [MatchPredicate.Term "foo"])
      ).lookup_doc_freq_reciprocal "foo" (fun _ => 42)).1 :=
  ⟨by decide,
    C10_automaton_term_lookup_source_independent _ _ _ _ _ (by decide)⟩

end RegexTest
